import Mathlib

/-!
Verification of the key/signature object model of `two1/bitcoin/crypto.py`.

The Python module is embedded shallowly: byte strings become `List Nat`
(each entry a byte value), Python `int` becomes `Nat` (all values handled
by the module are non-negative), raisable code returns `Except PyError`,
and the `str`-or-`bytes` arguments accepted by several entry points become
`PyData`.  Collaborator code that lives outside `crypto.py`
(`two1/crypto/ecdsa.py`, the `base58` and `base64` libraries, `hashlib`)
is modelled from the specification, as marked on each such definition.
-/

set_option maxRecDepth 100000

/-! ## Byte-string primitives -/

/-- Big-endian base-256 value of a byte string, as computed by Python
`int.from_bytes(b, 'big')`. -/
def fromBytesBE (l : List Nat) : Nat :=
  l.foldl (fun a b => 256 * a + b) 0

/-- Fixed-width big-endian byte string of `x`, as computed by Python
`x.to_bytes(l, 'big')` when `x < 256 ^ l` (Python raises `OverflowError`
otherwise; the call sites that can overflow go through `intToBytes`). -/
def toBytesBE : Nat → Nat → List Nat
  | 0, _ => []
  | l + 1, x => toBytesBE l (x / 256) ++ [x % 256]

/-- Fuel-driven computation of the binary length of `n`; `bitLength` supplies
enough fuel. -/
def bitLenF : Nat → Nat → Nat
  | 0, _ => 0
  | f + 1, n => if n = 0 then 0 else bitLenF f (n / 2) + 1

/-- Python `int.bit_length()`: the number of binary digits of `n`, with
`bitLength 0 = 0`. -/
def bitLength (n : Nat) : Nat :=
  bitLenF (n + 1) n

/-! ## Python run-time errors and `str`-or-`bytes` values -/

/-- The Python exception classes that the embedded code paths can raise. -/
inductive PyError where
  | indexError : PyError
  | valueError : String → PyError
  | typeError : String → PyError
  | assertionError : PyError
  | unicodeEncodeError : PyError
  | overflowError : PyError

deriving instance DecidableEq for PyError

deriving instance DecidableEq for Except

/-- A Python value that may be either `bytes` or `str`.  A `bytes` value
carries its byte values; a `str` carries its character code points.  (The
third case of `get_bytes`, a `TypeError` for any other type, is
unrepresentable in this two-constructor model.) -/
inductive PyData where
  | bytes : List Nat → PyData
  | str : List Nat → PyData

deriving instance DecidableEq for PyData

/-- Value of an ASCII hex-digit character code, when it is one. -/
def hexDigitVal (c : Nat) : Option Nat :=
  if 48 ≤ c ∧ c ≤ 57 then some (c - 48)
  else if 97 ≤ c ∧ c ≤ 102 then some (c - 87)
  else if 65 ≤ c ∧ c ≤ 70 then some (c - 55)
  else none

/-- Python `bytes.fromhex`: consecutive pairs of hex digits become bytes; a
dangling digit or a non-hex character raises `ValueError`. -/
def fromhex : List Nat → Except PyError (List Nat)
  | [] => .ok []
  | [_] => .error (.valueError "non-hexadecimal number found in fromhex() arg")
  | a :: b :: rest =>
    match hexDigitVal a, hexDigitVal b with
    | some x, some y => (fromhex rest).map (fun t => (16 * x + y) :: t)
    | _, _ => .error (.valueError "non-hexadecimal number found in fromhex() arg")

/-- Embeds `get_bytes` (crypto.py lines 13-21): `bytes` pass through, `str`
is hex-decoded. -/
def get_bytes : PyData → Except PyError (List Nat)
  | .bytes b => .ok b
  | .str s => fromhex s

/-- Python indexing `l[i]` for a non-negative index: `IndexError` when the
index is out of range. -/
def pyAt (l : List Nat) (i : Nat) : Except PyError Nat :=
  if i < l.length then .ok (l.getD i 0) else .error .indexError

/-- Python `x.to_bytes(l, 'big')` including the `OverflowError` on a value
that does not fit. -/
def intToBytes (x l : Nat) : Except PyError (List Nat) :=
  if x < 256 ^ l then .ok (toBytesBE l x) else .error .overflowError

/-- Python `bytes([i])` for an `int` entry: `ValueError` outside `[0, 256)`.
The argument is an `Int` because one call site (`verify_bitcoin`) computes a
possibly negative value. -/
def pyByte (i : Int) : Except PyError Nat :=
  if 0 ≤ i ∧ i < 256 then .ok i.toNat else .error (.valueError "bytes must be in range(0, 256)")

/-! ## secp256k1 constants

The curve parameters live in the collaborator module `two1/crypto/ecdsa.py`,
which is not part of the sources under verification; the spec fixes the
curve to secp256k1, whose public constants these are. -/

/-- secp256k1 base field prime. -/
def secpP : Nat := 0xFFFFFFFFFFFFFFFFFFFFFFFFFFFFFFFFFFFFFFFFFFFFFFFFFFFFFFFEFFFFFC2F

/-- secp256k1 group order `n` (`bitcoin_curve.n`). -/
def secpN : Nat := 0xFFFFFFFFFFFFFFFFFFFFFFFFFFFFFFFEBAAEDCE6AF48A03BBFD25E8CD0364141

/-- secp256k1 base-point x coordinate. -/
def secpGx : Nat := 0x79BE667EF9DCBBAC55A06295CE870B07029BFCDB2DCE28D959F2815B16F81798

/-- secp256k1 base-point y coordinate. -/
def secpGy : Nat := 0x483ADA7726A3C4655DA4FBFC0E1108A8FD17B448A68554199C47D08FFB10D4B8

/-- Modelled from the spec: the collaborator predicate `isOnCurve(point)` of
the missing curve module, instantiated with the secp256k1 equation
`y^2 = x^3 + 7 (mod p)`. -/
def isOnCurvePt (pt : Nat × Nat) : Bool :=
  pt.2 * pt.2 % secpP == (pt.1 * pt.1 % secpP * pt.1 + 7) % secpP

/-! ## The Signature object and its DER codec -/

/-- Embeds the `Signature` constructor state (crypto.py lines 581-584): the
components are stored as-is; `recovery_id` is an `Int` option because
`verify_bitcoin` stores `magic - 27`, which can be negative. -/
structure Signature where
  r : Nat
  s : Nat
  recovery_id : Option Int

deriving instance DecidableEq for Signature

/-- The byte count `bl = math.ceil(x.bit_length() / 8); if bl == 0: bl += 1`
computed by `Signature._canonicalize` (crypto.py lines 603-607). -/
def pyByteLen (x : Nat) : Nat :=
  if (bitLength x + 7) / 8 = 0 then (bitLength x + 7) / 8 + 1 else (bitLength x + 7) / 8

/-- Embeds one element of `Signature._canonicalize` (crypto.py lines
600-617): minimal big-endian bytes, at least one byte, with a zero byte
prepended when the leading byte has its high bit set. -/
def canonicalIntBytes (x : Nat) : List Nat :=
  let x_bytes := toBytesBE (pyByteLen x) x
  if x_bytes.headI &&& 0x80 ≠ 0 then 0 :: x_bytes else x_bytes

/-- Embeds `Signature.to_der` (crypto.py lines 619-631). -/
def Signature.to_der (sig : Signature) : List Nat :=
  let r := canonicalIntBytes sig.r
  let s := canonicalIntBytes sig.s
  let total_length := 6 + r.length + s.length
  [0x30, total_length - 2, 0x02, r.length] ++ r ++ [0x02, s.length] ++ s

/-- Embeds the body of `Signature.from_der` (crypto.py lines 499-551), after
`get_bytes`.  Index and slice bookkeeping: `d[1] != len(d[2:])` becomes
`d.getD 1 0 ≠ (d.drop 2).length`; `d[3] <= 0 or d[3] > (total_length - 7)`
becomes `d.getD 3 0 = 0 ∨ d.getD 1 0 - 7 < d.getD 3 0` (when
`total_length < 7` Python compares against a negative number and always
rejects, and truncated `Nat` subtraction rejects there too, because the
`= 0` disjunct catches `d[3] = 0` and any positive `d[3]` exceeds `0`);
`d[4:4+rlen]` becomes `(d.drop 4).take rlen`; `d[slen_index + 1:]` becomes
`d.drop (slen_index + 1)`.  Every index read (`rb[0]`, `d[s_magic_index]`,
`sb[0]`, ...) is in range on the paths that reach it, because the earlier
length checks bound the offsets, so `getD`/`headI` agree with Python
indexing. -/
def derDecode (d : List Nat) : Except PyError Signature :=
  if d.length < 8 then .error (.valueError "DER signature string is too short.")
  else if d.getD 0 0 ≠ 0x30 then .error (.valueError "DER signature does not start with 0x30.")
  else if d.getD 1 0 ≠ (d.drop 2).length then .error (.valueError "DER signature length incorrect.")
  else if d.getD 2 0 ≠ 0x02 then .error (.valueError "DER signature no 1st int marker.")
  else if d.getD 3 0 = 0 ∨ d.getD 1 0 - 7 < d.getD 3 0 then
    .error (.valueError "DER signature incorrect r length.")
  else
    let rlen := d.getD 3 0
    let rb := (d.drop 4).take rlen
    if rb.headI &&& 0x80 ≠ 0 then .error (.valueError "DER signature R is negative.")
    else if 1 < rb.length ∧ rb.headI = 0 ∧ rb.getD 1 0 &&& 0x80 ≠ 0x80 then
      .error (.valueError "DER signature R is excessively padded.")
    else
      let r := fromBytesBE rb
      if d.getD (4 + rlen) 0 ≠ 0x02 then .error (.valueError "DER signature no 2nd int marker.")
      else
        let slen := d.getD (4 + rlen + 1) 0
        if slen = 0 ∨ d.length - (4 + rlen + 1 + 1) < slen then
          .error (.valueError "DER signature incorrect s length.")
        else
          let sb := d.drop (4 + rlen + 1 + 1)
          if sb.headI &&& 0x80 ≠ 0 then .error (.valueError "DER signature S is negative.")
          else if 1 < sb.length ∧ sb.headI = 0 ∧ sb.getD 1 0 &&& 0x80 ≠ 0x80 then
            .error (.valueError "DER signature S is excessively padded.")
          else
            let s := fromBytesBE sb
            if r < 1 ∨ secpN ≤ r then
              .error (.valueError "DER signature R is not between 1 and N - 1.")
            else if s < 1 ∨ secpN ≤ s then
              .error (.valueError "DER signature S is not between 1 and N - 1.")
            else .ok ⟨r, s, none⟩

/-- Embeds `Signature.from_der` (crypto.py lines 489-551) including the
`get_bytes` normalization of its argument. -/
def Signature.from_der (der : PyData) : Except PyError Signature :=
  (get_bytes der).bind derDecode

/-- Embeds `Signature.from_bytes` (crypto.py lines 565-579): `r` from
`b[0:32]`, `s` from `b[32:64]` (Python slices clamp, as `take`/`drop` do). -/
def Signature.fromBytes64 (b : List Nat) : Signature :=
  ⟨fromBytesBE (b.take 32), fromBytesBE ((b.drop 32).take 32), none⟩

/-! ## Modelled curve collaborator

`two1/crypto/ecdsa.py` is not among the sources under verification; the
functions below are modelled from the spec, which fixes the curve to
secp256k1 and gives the collaborator interface
(`publicKeyFromScalar(k) → point`, `yFromX(x) → {y0, y1}`, `sign`,
`verify`, `recoverCandidates`, constants `n` and `nlen`). -/

/-- Modular addition in the secp256k1 base field. -/
def addmod (a b : Nat) : Nat := (a + b) % secpP

/-- Modular subtraction in the secp256k1 base field, kept in `Nat` by adding
the modulus first. -/
def submod (a b : Nat) : Nat := (a + (secpP - b % secpP)) % secpP

/-- Modular multiplication in the secp256k1 base field. -/
def mulmod (a b : Nat) : Nat := a * b % secpP

/-- Fuel-driven binary modular exponentiation; `powMod` supplies enough
fuel (one unit per halving of the exponent). -/
def powModF : Nat → Nat → Nat → Nat → Nat
  | 0, _, _, _ => 1
  | f + 1, b, e, m =>
    if e = 0 then 1 % m
    else
      let h := powModF f (b * b % m) (e / 2) m
      if e % 2 = 1 then h * (b % m) % m else h

/-- Modular exponentiation `b ^ e mod m`. -/
def powMod (b e m : Nat) : Nat := powModF (e + 1) b e m

/-- Jacobian-coordinate point doubling on secp256k1 (`a = 0` curve);
`(_, _, 0)` is the point at infinity. -/
def jacDouble (P : Nat × Nat × Nat) : Nat × Nat × Nat :=
  let X := P.1
  let Y := P.2.1
  let Z := P.2.2
  if Z = 0 ∨ Y = 0 then (1, 1, 0)
  else
    let S := mulmod 4 (mulmod X (mulmod Y Y))
    let M := mulmod 3 (mulmod X X)
    let X2 := submod (mulmod M M) (mulmod 2 S)
    let YY := mulmod Y Y
    let Y2 := submod (mulmod M (submod S X2)) (mulmod 8 (mulmod YY YY))
    let Z2 := mulmod 2 (mulmod Y Z)
    (X2, Y2, Z2)

/-- Mixed Jacobian-affine addition of the secp256k1 base point `G` to a
Jacobian point. -/
def jacAddG (P : Nat × Nat × Nat) : Nat × Nat × Nat :=
  let X1 := P.1
  let Y1 := P.2.1
  let Z1 := P.2.2
  if Z1 = 0 then (secpGx, secpGy, 1)
  else
    let Z1Z1 := mulmod Z1 Z1
    let U2 := mulmod secpGx Z1Z1
    let S2 := mulmod secpGy (mulmod Z1 Z1Z1)
    if U2 = X1 % secpP then
      if S2 = Y1 % secpP then jacDouble P else (1, 1, 0)
    else
      let H := submod U2 X1
      let R := submod S2 Y1
      let H2 := mulmod H H
      let H3 := mulmod H H2
      let X3 := submod (submod (mulmod R R) H3) (mulmod 2 (mulmod X1 H2))
      let Y3 := submod (mulmod R (submod (mulmod X1 H2) X3)) (mulmod Y1 H3)
      let Z3 := mulmod Z1 H
      (X3, Y3, Z3)

/-- Fuel-driven double-and-add ladder computing `k·G` in Jacobian
coordinates; 257 units of fuel cover any `k < 2 ^ 256`. -/
def jacMulGF : Nat → Nat → Nat × Nat × Nat
  | 0, _ => (1, 1, 0)
  | f + 1, k =>
    if k = 0 then (1, 1, 0)
    else
      let h := jacDouble (jacMulGF f (k / 2))
      if k % 2 = 1 then jacAddG h else h

/-- Jacobian to affine conversion; the point at infinity maps to `(0, 0)`,
which is off-curve (the missing module has no affine infinity either — no
claim evaluates the collaborator at a scalar divisible by `n`). -/
def jacToAffine (P : Nat × Nat × Nat) : Nat × Nat :=
  let Z := P.2.2
  if Z = 0 then (0, 0)
  else
    let zi := powMod Z (secpP - 2) secpP
    (mulmod P.1 (mulmod zi zi), mulmod P.2.1 (mulmod zi (mulmod zi zi)))

/-- Modelled from the spec: the curve collaborator scalar-multiplication
primitive `publicKeyFromScalar(k)` (`bitcoin_curve.public_key`), which
returns `k·G` on secp256k1.  Because the subgroup generated by `G` has
order `n`, `k·G = (k mod n)·G`; the reduction keeps the ladder short for
very large scalars and is mathematically exact. -/
def bitcoinPublicKey (k : Nat) : Nat × Nat :=
  jacToAffine (jacMulGF 257 (k % secpN))

/-- Modelled from the spec: the curve collaborator `yFromX(x) → {y0, y1}`,
the two square-root candidates of `x^3 + 7` modulo the field prime
(`p ≡ 3 mod 4`, so a square root of a residue is the `(p+1)/4` power). -/
def y_from_x (x : Nat) : List Nat :=
  let a := (x * x % secpP * x + 7) % secpP
  let y := powMod a ((secpP + 1) / 4) secpP
  [y, (secpP - y) % secpP]

/-! ## PublicKey and PrivateKey -/

/-- Embeds the `PublicKey` object state (crypto.py lines 378-392).  The two
cached `hash160` digests (`self.ripe`, `self.ripe_compressed`) are total
computations that no claim under verification reads, and are not
modelled. -/
structure PubKey where
  point : Nat × Nat

deriving instance DecidableEq for PubKey

/-- Embeds `PublicKey.__init__` (crypto.py lines 378-383): the point is
validated against the curve equation and construction fails off-curve. -/
def publicKeyInit (x y : Nat) : Except PyError PubKey :=
  if isOnCurvePt (x, y) then .ok ⟨(x, y)⟩
  else .error (.valueError "The provided (x, y) are not on the secp256k1 curve.")

/-- Embeds `PublicKey.from_point` (crypto.py lines 216-228). -/
def publicKeyFromPoint (pt : Nat × Nat) : Except PyError PubKey :=
  publicKeyInit pt.1 pt.2

/-- Embeds the `PrivateKey` object state: the scalar and the eagerly derived
public key. -/
structure PrivKey where
  key : Nat
  public_key : PubKey

deriving instance DecidableEq for PrivKey

/-- Embeds `PrivateKey.__init__` (crypto.py lines 76-78):
`self.key = k` with no validation, then
`PublicKey.from_point(bitcoin_curve.public_key(self.key))`.  The
collaborator `bitcoin_curve.public_key` is passed as an argument so that
theorems can quantify over any spec-conformant implementation;
`bitcoinPublicKey` is the concrete model. -/
def privateKeyInit (public_key_fn : Nat → Nat × Nat) (k : Nat) : Except PyError PrivKey := do
  let pub ← publicKeyFromPoint (public_key_fn k)
  .ok ⟨k, pub⟩

/-- Embeds `PrivateKey.from_int` (crypto.py lines 39-49), which simply calls
the constructor. -/
def privateKeyFromInt (public_key_fn : Nat → Nat × Nat) (i : Nat) : Except PyError PrivKey :=
  privateKeyInit public_key_fn i

/-- Embeds `PublicKey.from_bytes` (crypto.py lines 263-309).  `b[0]` is read
through `pyAt` because Python raises `IndexError` there on empty input;
`b[1:33]`/`b[33:65]` become `drop`/`take`; the parity-selection loop
`for y in ys: if y & 0x1 == last_bit: break` leaves `y` at the last element
when no candidate matches, which `find?`-with-default mirrors (the modelled
`y_from_x` always returns two candidates, so the loop variable is always
bound). -/
def publicKeyFromBytes (key_bytes : PyData) : Except PyError (Option PubKey) := do
  let b ← get_bytes key_bytes
  let key_type ← pyAt b 0
  if key_type = 0x04 then
    if b.length ≠ 65 then
      .error (.valueError "key_bytes must be exactly 65 bytes long when uncompressed.")
    else
      let x := fromBytesBE ((b.drop 1).take 32)
      let y := fromBytesBE ((b.drop 33).take 32)
      (publicKeyInit x y).map some
  else if key_type = 0x02 ∨ key_type = 0x03 then
    if b.length ≠ 33 then
      .error (.valueError "key_bytes must be exactly 33 bytes long when compressed.")
    else
      let x := fromBytesBE ((b.drop 1).take 32)
      let ys := y_from_x x
      let last_bit := key_type - 0x02
      let y := (ys.find? (fun yv => yv &&& 0x1 == last_bit)).getD ys.getLastI
      (publicKeyInit x y).map some
  else
    .ok none

/-! ## SHA-256 (models `hashlib.sha256`) -/

/-- Bytes to big-endian 32-bit words, four at a time. -/
def toWords : List Nat → List Nat
  | a :: b :: c :: d :: rest => (((a * 256 + b) * 256 + c) * 256 + d) :: toWords rest
  | _ => []

/-- The 64 SHA-256 round constants, packed big-endian into a single
2048-bit number (unpacked below with the same word decoder the message
blocks use). -/
def sha256Kpacked : Nat :=
  0x428a2f9871374491b5c0fbcfe9b5dba53956c25b59f111f1923f82a4ab1c5ed5d807aa9812835b01243185be550c7dc372be5d7480deb1fe9bdc06a7c19bf174e49b69c1efbe47860fc19dc6240ca1cc2de92c6f4a7484aa5cb0a9dc76f988da983e5152a831c66db00327c8bf597fc7c6e00bf3d5a7914706ca63511429296727b70a852e1b21384d2c6dfc53380d13650a7354766a0abb81c2c92e92722c85a2bfe8a1a81a664bc24b8b70c76c51a3d192e819d6990624f40e3585106aa07019a4c1161e376c082748774c34b0bcb5391c0cb34ed8aa4a5b9cca4f682e6ff3748f82ee78a5636f84c878148cc7020890befffaa4506cebbef9a3f7c67178f2

/-- SHA-256 round constants. -/
def sha256K : List Nat := toWords (toBytesBE 256 sha256Kpacked)

/-- The SHA-256 initial hash state, packed big-endian into a single 256-bit
number. -/
def sha256H0packed : Nat :=
  0x6a09e667bb67ae853c6ef372a54ff53a510e527f9b05688c1f83d9ab5be0cd19

/-- SHA-256 initial hash state. -/
def sha256H0 : List Nat := toWords (toBytesBE 32 sha256H0packed)

/-- 32-bit right rotation (inputs are kept below `2 ^ 32`; the two shifted
parts occupy disjoint bit ranges, so addition is bitwise-or here). -/
def rotr32 (n w : Nat) : Nat := (w >>> n) + (w % 2 ^ n) * 2 ^ (32 - n)

/-- Three-way xor. -/
def xor3 (a b c : Nat) : Nat := a ^^^ b ^^^ c

/-- SHA-256 big sigma 0. -/
def bsig0 (w : Nat) : Nat := xor3 (rotr32 2 w) (rotr32 13 w) (rotr32 22 w)

/-- SHA-256 big sigma 1. -/
def bsig1 (w : Nat) : Nat := xor3 (rotr32 6 w) (rotr32 11 w) (rotr32 25 w)

/-- SHA-256 small sigma 0. -/
def ssig0 (w : Nat) : Nat := xor3 (rotr32 7 w) (rotr32 18 w) (w >>> 3)

/-- SHA-256 small sigma 1. -/
def ssig1 (w : Nat) : Nat := xor3 (rotr32 17 w) (rotr32 19 w) (w >>> 10)

/-- Extends a 16-word message schedule by the given number of words. -/
def extendW : Nat → List Nat → List Nat
  | 0, w => w
  | f + 1, w =>
    extendW f (w ++ [(ssig1 (w.getD (w.length - 2) 0) + w.getD (w.length - 7) 0 +
      ssig0 (w.getD (w.length - 15) 0) + w.getD (w.length - 16) 0) % 2 ^ 32])

/-- One SHA-256 compression round over the 8-word working state. -/
def compressRound (st : List Nat) (kw : Nat × Nat) : List Nat :=
  match st with
  | [a, b, c, d, e, f, g, h] =>
    let ch := (e &&& f) ^^^ ((4294967295 ^^^ e) &&& g)
    let maj := (a &&& b) ^^^ (a &&& c) ^^^ (b &&& c)
    let t1 := (h + bsig1 e + ch + kw.1 + kw.2) % 2 ^ 32
    let t2 := (bsig0 a + maj) % 2 ^ 32
    [(t1 + t2) % 2 ^ 32, a, b, c, (d + t1) % 2 ^ 32, e, f, g]
  | _ => st

/-- SHA-256 compression of a single 64-byte block into the hash state. -/
def compressBlock (h0 : List Nat) (block : List Nat) : List Nat :=
  let w := extendW 48 (toWords block)
  let st := (sha256K.zip w).foldl compressRound h0
  (h0.zip st).map (fun pr => (pr.1 + pr.2) % 2 ^ 32)

/-- SHA-256 padding: `0x80`, zeros to 56 mod 64, then the 8-byte big-endian
bit length. -/
def sha256pad (msg : List Nat) : List Nat :=
  msg ++ 0x80 :: List.replicate ((119 - msg.length % 64) % 64) 0 ++ toBytesBE 8 (msg.length * 8)

/-- Fuel-driven fold of `compressBlock` over 64-byte chunks. -/
def sha256blocksF : Nat → List Nat → List Nat → List Nat
  | 0, _, h => h
  | f + 1, m, h => if m = [] then h else sha256blocksF f (m.drop 64) (compressBlock h (m.take 64))

/-- SHA-256 of a byte string, as a 32-byte string (models
`hashlib.sha256(msg).digest()`). -/
def sha256 (msg : List Nat) : List Nat :=
  let padded := sha256pad msg
  ((sha256blocksF (padded.length + 1) padded sha256H0).map (toBytesBE 4)).flatten

/-! ## Base64 (models the `base64` library) -/

/-- The Base64 alphabet as ASCII codes. -/
def b64chars : List Nat :=
  (List.range 26).map (· + 65) ++ (List.range 26).map (· + 97) ++
    (List.range 10).map (· + 48) ++ [43, 47]

/-- Base64 digit to ASCII code. -/
def b64c (i : Nat) : Nat := b64chars.getD i 65

/-- Models `base64.b64encode`: 3 input bytes to 4 alphabet codes, with `=`
(code 61) padding. -/
def b64encode : List Nat → List Nat
  | [] => []
  | [a] => [b64c (a / 4), b64c (a % 4 * 16), 61, 61]
  | [a, b] => [b64c (a / 4), b64c (a % 4 * 16 + b / 16), b64c (b % 16 * 4), 61]
  | a :: b :: c :: rest =>
    [b64c (a / 4), b64c (a % 4 * 16 + b / 16), b64c (b % 16 * 4 + c / 64), b64c (c % 64)] ++
      b64encode rest

/-- Value of a Base64 alphabet code, when it is one. -/
def b64val (c : Nat) : Option Nat :=
  if 65 ≤ c ∧ c ≤ 90 then some (c - 65)
  else if 97 ≤ c ∧ c ≤ 122 then some (c - 71)
  else if 48 ≤ c ∧ c ≤ 57 then some (c + 4)
  else if c = 43 then some 62
  else if c = 47 then some 63
  else none

/-- Strict Base64 group decoder. -/
def b64decodeCore : List Nat → Option (List Nat)
  | [] => some []
  | a :: b :: c :: d :: rest =>
    match b64val a, b64val b with
    | some va, some vb =>
      if c = 61 ∧ d = 61 ∧ rest = [] then some [va * 4 + vb / 16]
      else if d = 61 ∧ rest = [] then
        match b64val c with
        | some vc => some [va * 4 + vb / 16, vb % 16 * 16 + vc / 4]
        | none => none
      else
        match b64val c, b64val d with
        | some vc, some vd =>
          (b64decodeCore rest).map
            (fun t => (va * 4 + vb / 16) :: (vb % 16 * 16 + vc / 4) :: (vc % 4 * 64 + vd) :: t)
        | _, _ => none
    | _, _ => none
  | _ => none

/-- Models `base64.b64decode` on a `bytes` or `str` argument. -/
def b64decode (s : PyData) : Except PyError (List Nat) :=
  match (match s with | .bytes b => b64decodeCore b | .str c => b64decodeCore c) with
  | some b => .ok b
  | none => .error (.valueError "Invalid base64-encoded string")

/-! ## Bitcoin Signed Message signing and verification -/

/-- The bytes of `b"\x18Bitcoin Signed Message:\n"` (crypto.py line 167). -/
def bsmHeader : List Nat :=
  [0x18, 66, 105, 116, 99, 111, 105, 110, 32, 83, 105, 103, 110, 101, 100, 32,
   77, 101, 115, 115, 97, 103, 101, 58, 10]

/-- Type of the modelled curve collaborator `sign(message, scalar,
hashFirst) → ((r, s), recoveryId)` (spec interface; `two1/crypto/ecdsa.py`
is not among the sources under verification). -/
def CurveSign : Type := List Nat → Nat → Bool → (Nat × Nat) × Nat

/-- Embeds `PrivateKey.raw_sign` (crypto.py lines 89-112): a `str` message
is ASCII-encoded (`UnicodeEncodeError` above code 127), then the curve
collaborator signs. -/
def raw_sign (S : CurveSign) (key : Nat) (message : PyData) (do_hash : Bool) :
    Except PyError ((Nat × Nat) × Nat) :=
  match message with
  | .str s => if s.all (fun c => c < 128) then .ok (S s key do_hash) else .error .unicodeEncodeError
  | .bytes b => .ok (S b key do_hash)

/-- Embeds `PrivateKey.sign` (crypto.py lines 114-137): wraps `raw_sign`
into a `Signature` carrying the recovery id. -/
def signSig (S : CurveSign) (key : Nat) (message : PyData) (do_hash : Bool) :
    Except PyError Signature := do
  let pr ← raw_sign S key message do_hash
  .ok ⟨pr.1.1, pr.1.2, some (pr.2 : Int)⟩

/-- The group-order byte width `math.ceil(bitcoin_curve.nlen / 8)` used by
`Signature.__bytes__` (crypto.py lines 649-651); `nlen = 256`. -/
def sigComponentBytes : Nat := (256 + 7) / 8

/-- Embeds `Signature.__bytes__` (crypto.py lines 649-651): fixed-width
`r(32) ‖ s(32)`, with Python `to_bytes` `OverflowError` on components that
do not fit. -/
def signatureBytes (sig : Signature) : Except PyError (List Nat) := do
  let rB ← intToBytes sig.r sigComponentBytes
  let sB ← intToBytes sig.s sigComponentBytes
  .ok (rB ++ sB)

/-- Embeds `PrivateKey.sign_bitcoin` (crypto.py lines 139-173).  The
`none` branch of the final match is unreachable (`sign` always sets a
recovery id); Python would raise a `TypeError` adding `None` there. -/
def sign_bitcoin (S : CurveSign) (key : Nat) (message : PyData) : Except PyError (List Nat) := do
  let msg_in ← (match message with
    | .str s =>
      if s.all (fun c => c < 128) then Except.ok s else Except.error PyError.unicodeEncodeError
    | .bytes b => Except.ok b)
  let lenB ← pyByte (msg_in.length : Int)
  let msg := bsmHeader ++ [lenB] ++ msg_in
  let msg_hash := sha256 msg
  let sig ← signSig S key (.bytes msg_hash) true
  match sig.recovery_id with
  | some rid => do
    let magicByte ← pyByte (27 + rid)
    let sB ← signatureBytes sig
    .ok (b64encode ([magicByte] ++ sB))
  | none => .error (.typeError "unsupported operand type for +: int and NoneType")

/-- Type of the modelled curve collaborator
`recoverCandidates(message, signature, recoveryId) → list of (point,
recoveryId)` (spec interface). -/
def RecoverFn : Type := List Nat → Signature → Int → List ((Nat × Nat) × Int)

/-- Type of the modelled curve collaborator
`verify(message, signature, point, hashFirst) → bool` (spec interface). -/
def VerifyFn : Type := List Nat → Signature → (Nat × Nat) → Bool → Bool

/-- Embeds `PublicKey.from_signature` (crypto.py lines 324-348): requires a
recovery id, asks the collaborator for candidates, and returns the public
key of the first candidate whose recovery id matches, or `none`. -/
def publicKeyFromSignature (R : RecoverFn) (message : PyData) (signature : Signature) :
    Except PyError (Option PubKey) :=
  match signature.recovery_id with
  | none => .error (.valueError "The signature must have a recovery_id.")
  | some rid => do
    let msg ← get_bytes message
    let pub_keys := R msg signature rid
    match pub_keys.find? (fun kr => kr.2 == rid) with
    | some kr => (publicKeyInit kr.1.1 kr.1.2).map some
    | none => .ok none

/-- Embeds `PublicKey.verify` (crypto.py lines 423-438): delegates to the
curve collaborator and returns its boolean. -/
def publicKeyVerify (V : VerifyFn) (pub : PubKey) (message : PyData) (signature : Signature)
    (do_hash : Bool) : Except PyError Bool := do
  let msg ← get_bytes message
  .ok (V msg signature pub.point do_hash)

/-- Python `len` of a `str`-or-`bytes` value. -/
def pyLen : PyData → Nat
  | .bytes b => b.length
  | .str s => s.length

/-- Embeds `PublicKey.verify_bitcoin` (crypto.py lines 350-376).  Order of
effects follows the source: `get_bytes(signature)` (result unused),
`b64decode`, `magic_sig[0]`, `Signature.from_bytes(magic_sig[1:])`,
`recovery_id = magic - 27`, then the preimage line 369, in which
`bytes([len(message)])` is evaluated before the `bytes + message`
concatenation, which raises `TypeError` when `message` is a `str`. -/
def verify_bitcoin (R : RecoverFn) (V : VerifyFn) (message : PyData) (signature : PyData) :
    Except PyError Bool := do
  let _sig_bytes ← get_bytes signature
  let magic_sig ← b64decode signature
  let magic ← pyAt magic_sig 0
  let sig0 := Signature.fromBytes64 (magic_sig.drop 1)
  let sig : Signature := ⟨sig0.r, sig0.s, some ((magic : Int) - 27)⟩
  let lenB ← pyByte (pyLen message : Int)
  let msgB ← (match message with
    | .bytes b => Except.ok b
    | .str _ => Except.error (PyError.typeError "cannot concatenate str to bytes"))
  let msg := bsmHeader ++ [lenB] ++ msgB
  let msg_hash := sha256 msg
  let derived ← publicKeyFromSignature R (.bytes msg_hash) sig
  match derived with
  | none => .error (.valueError "Could not recover public key from the provided signature.")
  | some pk => publicKeyVerify V pk (.bytes msg_hash) sig true

/-! ## Base58Check (models the `base58` library, per spec section 6) -/

/-- The Base58 alphabet as ASCII codes
(`123456789ABCDEFGHJKLMNPQRSTUVWXYZabcdefghijkmnopqrstuvwxyz`). -/
def b58chars : List Nat :=
  [49, 50, 51, 52, 53, 54, 55, 56, 57,
   65, 66, 67, 68, 69, 70, 71, 72, 74, 75, 76, 77, 78,
   80, 81, 82, 83, 84, 85, 86, 87, 88, 89, 90,
   97, 98, 99, 100, 101, 102, 103, 104, 105, 106, 107,
   109, 110, 111, 112, 113, 114, 115, 116, 117, 118, 119, 120, 121, 122]

/-- Fuel-driven most-significant-first base-`b` digit expansion of `n`
(empty for `n = 0`); callers supply `n + 1` fuel, enough for any `n`. -/
def natDigitsF : Nat → Nat → Nat → List Nat
  | 0, _, _ => []
  | f + 1, b, n => if n = 0 then [] else natDigitsF f b (n / b) ++ [n % b]

/-- Base58 digit string (as ASCII codes) of a natural number. -/
def natToB58 (n : Nat) : List Nat :=
  (natDigitsF (n + 1) 58 n).map (fun d => b58chars.getD d 49)

/-- Minimal big-endian byte string of a natural number (empty for 0), as
the `base58` library computes on decode. -/
def natToBytesMin (n : Nat) : List Nat := natDigitsF (n + 1) 256 n

/-- Position of a code in an alphabet list. -/
def alphaIdx : List Nat → Nat → Nat → Option Nat
  | [], _, _ => none
  | a :: rest, c, i => if a = c then some i else alphaIdx rest c (i + 1)

/-- Value of a Base58 alphabet code, when it is one. -/
def b58val (c : Nat) : Option Nat := alphaIdx b58chars c 0

/-- Accumulating base-58 value of a digit string; `ValueError` on a
non-alphabet code. -/
def b58ToNatAcc : Nat → List Nat → Except PyError Nat
  | acc, [] => .ok acc
  | acc, c :: rest =>
    match b58val c with
    | some d => b58ToNatAcc (58 * acc + d) rest
    | none => .error (.valueError "Invalid base58 character")

/-- Length of the leading run of `c` in a list. -/
def countLeading (c : Nat) : List Nat → Nat
  | [] => 0
  | a :: t => if a = c then countLeading c t + 1 else 0

/-- Models `base58.b58encode`: leading zero bytes become leading `1`
characters; the remaining value is written in base 58. -/
def b58encodeM (b : List Nat) : List Nat :=
  List.replicate (countLeading 0 b) 49 ++ natToB58 (fromBytesBE b)

/-- Models `base58.b58decode`: leading `1` characters become zero bytes;
the remaining digits are decoded and written as minimal bytes. -/
def b58decodeM (s : List Nat) : Except PyError (List Nat) := do
  let v ← b58ToNatAcc 0 (s.drop (countLeading 49 s))
  .ok (List.replicate (countLeading 49 s) 0 ++ natToBytesMin v)

/-- First four bytes of the double SHA-256 of a payload (the Base58Check
checksum). -/
def sha256d4 (payload : List Nat) : List Nat := (sha256 (sha256 payload)).take 4

/-- Models `base58.b58encode_check`: append the 4-byte checksum, then
Base58-encode. -/
def b58encode_check (v : List Nat) : List Nat := b58encodeM (v ++ sha256d4 v)

/-- Models `base58.b58decode_check`: Base58-decode, split off the last four
bytes, verify them against the checksum of the rest.  (Python
`result[:-4]`/`result[-4:]` clamp exactly as truncated subtraction does.) -/
def b58decode_check (s : List Nat) : Except PyError (List Nat) := do
  let result ← b58decodeM s
  let payload := result.take (result.length - 4)
  let check := result.drop (result.length - 4)
  if check = sha256d4 payload then .ok payload
  else .error (.valueError "Invalid checksum")

/-- `PrivateKey.TESTNET_VERSION` (crypto.py line 36). -/
def privTestnetVersion : Nat := 0xEF

/-- `PrivateKey.MAINNET_VERSION` (crypto.py line 37). -/
def privMainnetVersion : Nat := 0x80

/-- Embeds `PrivateKey.to_b58check` (crypto.py lines 175-182): version byte
then the 32-byte big-endian scalar (`PrivateKey.__bytes__`, line 192-193),
Base58Check-encoded. -/
def to_b58check (k : Nat) (testnet : Bool) : Except PyError (List Nat) := do
  let version := if testnet then privTestnetVersion else privMainnetVersion
  let kb ← intToBytes k 32
  .ok (b58encode_check ([version] ++ kb))

/-- Embeds `PrivateKey.from_b58check` (crypto.py lines 51-65): checked
Base58 decode, `assert` on the version byte, then the `PrivateKey`
constructor on the big-endian value of the remainder. -/
def from_b58check (public_key_fn : Nat → Nat × Nat) (s : List Nat) : Except PyError PrivKey := do
  let b58dec ← b58decode_check s
  let version ← pyAt b58dec 0
  if version = privTestnetVersion ∨ version = privMainnetVersion then
    privateKeyInit public_key_fn (fromBytesBE (b58dec.drop 1))
  else
    .error .assertionError

/-- Discriminates success from failure of an embedded Python call. -/
def exceptOk {α : Type} : Except PyError α → Bool
  | .ok _ => true
  | .error _ => false

/-- Regression anchor for the SHA-256 model: the FIPS 180 test vector for
the message `"abc"`. -/
theorem sha256_abc_vector : sha256 [97, 98, 99] = [0xba, 0x78, 0x16, 0xbf, 0x8f, 0x01, 0xcf, 0xea,
    0x41, 0x41, 0x40, 0xde, 0x5d, 0xae, 0x22, 0x23, 0xb0, 0x03, 0x61, 0xa3, 0x96, 0x17, 0x7a, 0x9c,
    0xb4, 0x10, 0xff, 0x61, 0xf2, 0x00, 0x15, 0xad] := by
  decide

/-! ## Arithmetic facts about the byte-string primitives -/

theorem lt_two_pow_succ (n : Nat) : n < 2 ^ (n + 1) := by
  induction n with
  | zero => norm_num
  | succ m ih =>
    have h2 : 2 ^ (m + 1 + 1) = 2 * 2 ^ (m + 1) := by ring
    omega

theorem toBytesBE_length (l x : Nat) : (toBytesBE l x).length = l := by
  induction l generalizing x with
  | zero => rfl
  | succ n ih => simp [toBytesBE, ih]

theorem fromBytesBE_acc (l : List Nat) (a : Nat) :
    l.foldl (fun a b => 256 * a + b) a = a * 256 ^ l.length + fromBytesBE l := by
  induction l generalizing a with
  | nil => simp [fromBytesBE]
  | cons x t ih =>
    simp only [List.foldl_cons, List.length_cons, fromBytesBE]
    rw [ih (256 * a + x)]
    have ht : t.foldl (fun a b => 256 * a + b) (256 * 0 + x) = (256 * 0 + x) * 256 ^ t.length + fromBytesBE t :=
      ih (256 * 0 + x)
    rw [ht]
    ring

theorem fromBytesBE_append (l1 l2 : List Nat) :
    fromBytesBE (l1 ++ l2) = fromBytesBE l1 * 256 ^ l2.length + fromBytesBE l2 := by
  show (l1 ++ l2).foldl (fun a b => 256 * a + b) 0 = _
  rw [List.foldl_append]
  exact fromBytesBE_acc l2 _

theorem fromBytesBE_single (x : Nat) : fromBytesBE [x] = x := by
  simp [fromBytesBE]

theorem fromBytesBE_cons_zero (l : List Nat) : fromBytesBE (0 :: l) = fromBytesBE l := by
  simp [fromBytesBE]

theorem fromBytesBE_toBytesBE (l x : Nat) (h : x < 256 ^ l) :
    fromBytesBE (toBytesBE l x) = x := by
  induction l generalizing x with
  | zero =>
    norm_num at h
    subst h
    rfl
  | succ n ih =>
    rw [toBytesBE, fromBytesBE_append, fromBytesBE_single]
    have hd : x / 256 < 256 ^ n := by
      rw [Nat.div_lt_iff_lt_mul (by norm_num)]
      calc x < 256 ^ (n + 1) := h
        _ = 256 ^ n * 256 := by ring
    rw [ih (x / 256) hd]
    simp [toBytesBE_length]
    omega

theorem toBytesBE_cons (l x : Nat) :
    toBytesBE (l + 1) x = (x / 256 ^ l) % 256 :: toBytesBE l x := by
  induction l generalizing x with
  | zero => simp [toBytesBE]
  | succ n ih =>
    have h1 : toBytesBE (n + 1 + 1) x = toBytesBE (n + 1) (x / 256) ++ [x % 256] := rfl
    have h2 : toBytesBE (n + 1) x = toBytesBE n (x / 256) ++ [x % 256] := rfl
    rw [h1, ih (x / 256), h2]
    have h3 : x / 256 / 256 ^ n = x / 256 ^ (n + 1) := by
      rw [Nat.div_div_eq_div_mul]
      congr 1
      ring
    rw [h3]
    rfl

theorem toBytesBE_headI (l x : Nat) (h : x < 256 ^ (l + 1)) :
    (toBytesBE (l + 1) x).headI = x / 256 ^ l := by
  rw [toBytesBE_cons]
  show (x / 256 ^ l) % 256 = x / 256 ^ l
  apply Nat.mod_eq_of_lt
  rw [Nat.div_lt_iff_lt_mul (Nat.pos_pow_of_pos l (by norm_num))]
  calc x < 256 ^ (l + 1) := h
    _ = 256 * 256 ^ l := by ring

theorem toBytesBE_bytes_lt (l x : Nat) : ∀ b ∈ toBytesBE l x, b < 256 := by
  induction l generalizing x with
  | zero => simp [toBytesBE]
  | succ n ih =>
    intro b hb
    rw [toBytesBE] at hb
    rcases List.mem_append.mp hb with h1 | h2
    · exact ih _ _ h1
    · simp at h2
      omega

/-! ## Facts about `bitLength` -/

theorem bitLenF_zero (f : Nat) : bitLenF f 0 = 0 := by
  cases f <;> simp [bitLenF]

theorem bitLenF_congr : ∀ f g n : Nat, n < 2 ^ f → n < 2 ^ g → bitLenF f n = bitLenF g n := by
  intro f
  induction f with
  | zero =>
    intro g n hf _
    norm_num at hf
    subst hf
    rw [bitLenF_zero, bitLenF_zero]
  | succ m ih =>
    intro g n hf hg
    rcases Nat.eq_zero_or_pos n with h0 | hpos
    · subst h0
      rw [bitLenF_zero, bitLenF_zero]
    · cases g with
      | zero =>
        norm_num at hg
        omega
      | succ gg =>
        have hfd : n / 2 < 2 ^ m := by
          have : (2:Nat) ^ (m + 1) = 2 ^ m * 2 := by ring
          omega
        have hgd : n / 2 < 2 ^ gg := by
          have : (2:Nat) ^ (gg + 1) = 2 ^ gg * 2 := by ring
          omega
        show bitLenF (m + 1) n = bitLenF (gg + 1) n
        rw [bitLenF, bitLenF]
        rw [if_neg (by omega), if_neg (by omega)]
        rw [ih gg (n / 2) hfd hgd]

theorem bitLenF_lt : ∀ f n : Nat, n < 2 ^ f → n < 2 ^ bitLenF f n := by
  intro f
  induction f with
  | zero =>
    intro n hf
    norm_num at hf
    subst hf
    norm_num [bitLenF_zero]
  | succ m ih =>
    intro n hf
    rcases Nat.eq_zero_or_pos n with h0 | hpos
    · subst h0
      norm_num [bitLenF_zero]
    · have hfd : n / 2 < 2 ^ m := by
        have : (2:Nat) ^ (m + 1) = 2 ^ m * 2 := by ring
        omega
      have hrec := ih (n / 2) hfd
      rw [bitLenF, if_neg (by omega)]
      have : (2:Nat) ^ (bitLenF m (n / 2) + 1) = 2 ^ bitLenF m (n / 2) * 2 := by ring
      omega

theorem bitLenF_le : ∀ f n k : Nat, n < 2 ^ f → n < 2 ^ k → bitLenF f n ≤ k := by
  intro f
  induction f with
  | zero =>
    intro n k hf _
    norm_num at hf
    subst hf
    simp [bitLenF_zero]
  | succ m ih =>
    intro n k hf hk
    rcases Nat.eq_zero_or_pos n with h0 | hpos
    · subst h0
      simp [bitLenF_zero]
    · have hkpos : 0 < k := by
        by_contra hc
        push_neg at hc
        interval_cases k
        norm_num at hk
        omega
      have hfd : n / 2 < 2 ^ m := by
        have : (2:Nat) ^ (m + 1) = 2 ^ m * 2 := by ring
        omega
      have hkd : n / 2 < 2 ^ (k - 1) := by
        have hke : (2:Nat) ^ k = 2 ^ (k - 1) * 2 := by
          calc (2:Nat) ^ k = 2 ^ (k - 1 + 1) := by congr 1; omega
            _ = 2 ^ (k - 1) * 2 := by ring
        omega
      have := ih (n / 2) (k - 1) hfd hkd
      rw [bitLenF, if_neg (by omega)]
      omega

theorem bitLenF_low : ∀ f n : Nat, n < 2 ^ f → 1 ≤ n → 2 ^ (bitLenF f n - 1) ≤ n := by
  intro f
  induction f with
  | zero =>
    intro n hf h1
    norm_num at hf
    omega
  | succ m ih =>
    intro n hf h1
    have hfd : n / 2 < 2 ^ m := by
      have : (2:Nat) ^ (m + 1) = 2 ^ m * 2 := by ring
      omega
    rw [bitLenF, if_neg (by omega)]
    rcases Nat.eq_zero_or_pos (n / 2) with h0 | hpos
    · have hn1 : n = 1 := by omega
      subst hn1
      have hz : bitLenF m (1 / 2) = 0 := by
        norm_num [bitLenF_zero]
      rw [hz]
      norm_num
    · have hrec := ih (n / 2) hfd hpos
      have hL1 : 1 ≤ bitLenF m (n / 2) := by
        cases m with
        | zero => norm_num at hfd; omega
        | succ mm =>
          rw [bitLenF, if_neg (by omega)]
          omega
      have hcalc : 2 ^ (bitLenF m (n / 2) + 1 - 1) = 2 ^ (bitLenF m (n / 2) - 1) * 2 := by
        calc 2 ^ (bitLenF m (n / 2) + 1 - 1) = 2 ^ (bitLenF m (n / 2) - 1 + 1) := by congr 1; omega
          _ = 2 ^ (bitLenF m (n / 2) - 1) * 2 := by ring
      omega

theorem bitLength_lt (n : Nat) : n < 2 ^ bitLength n :=
  bitLenF_lt (n + 1) n (lt_two_pow_succ n)

theorem bitLength_le (n k : Nat) (h : n < 2 ^ k) : bitLength n ≤ k :=
  bitLenF_le (n + 1) n k (lt_two_pow_succ n) h

theorem bitLength_low (n : Nat) (h : 1 ≤ n) : 2 ^ (bitLength n - 1) ≤ n :=
  bitLenF_low (n + 1) n (lt_two_pow_succ n) h

theorem bitLength_ge (n k : Nat) (h : 2 ^ k ≤ n) : k < bitLength n := by
  by_contra hc
  push_neg at hc
  have := bitLength_lt n
  have hle : (2:Nat) ^ bitLength n ≤ 2 ^ k := Nat.pow_le_pow_right (by norm_num) hc
  omega

/-! ## Facts about `pyByteLen` and `canonicalIntBytes` -/

theorem pyByteLen_pos (x : Nat) : 1 ≤ pyByteLen x := by
  unfold pyByteLen
  split <;> omega

theorem lt_pow_pyByteLen (x : Nat) : x < 256 ^ pyByteLen x := by
  have h1 := bitLength_lt x
  have h2 : bitLength x ≤ 8 * pyByteLen x := by
    unfold pyByteLen
    split <;> omega
  calc x < 2 ^ bitLength x := h1
    _ ≤ 2 ^ (8 * pyByteLen x) := Nat.pow_le_pow_right (by norm_num) h2
    _ = 256 ^ pyByteLen x := by
      rw [show (256:Nat) = 2 ^ 8 from by norm_num, ← Nat.pow_mul]

theorem pow_pyByteLen_le (x : Nat) (h : 1 ≤ x) : 256 ^ (pyByteLen x - 1) ≤ x := by
  have hbl := bitLength_low x h
  have hb1 : 1 ≤ bitLength x := by
    have := bitLength_ge x 0 (by omega)
    omega
  have h2 : 8 * (pyByteLen x - 1) ≤ bitLength x - 1 := by
    unfold pyByteLen
    split <;> omega
  calc 256 ^ (pyByteLen x - 1) = 2 ^ (8 * (pyByteLen x - 1)) := by
        rw [show (256:Nat) = 2 ^ 8 from by norm_num, ← Nat.pow_mul]
    _ ≤ 2 ^ (bitLength x - 1) := Nat.pow_le_pow_right (by norm_num) h2
    _ ≤ x := hbl

theorem pyByteLen_le_32 (x : Nat) (h : x < 2 ^ 256) : pyByteLen x ≤ 32 := by
  have := bitLength_le x 256 h
  unfold pyByteLen
  split <;> omega

theorem pyByteLen_ge_2 (x : Nat) (h : 2 ^ 15 ≤ x) : 2 ≤ pyByteLen x := by
  have := bitLength_ge x 15 h
  unfold pyByteLen
  split <;> omega

theorem pyByteLen_two_lt (x : Nat) (h : pyByteLen x = 2) : x < 2 ^ 16 := by
  have hb : bitLength x ≤ 16 := by
    unfold pyByteLen at h
    split at h <;> omega
  calc x < 2 ^ bitLength x := bitLength_lt x
    _ ≤ 2 ^ 16 := Nat.pow_le_pow_right (by norm_num) hb

theorem and128_eq (b : Nat) : b &&& 128 = 128 * (b / 128 % 2) := by
  have h := Nat.and_two_pow b 7
  rw [Nat.testBit_to_div_mod] at h
  norm_num at h
  rcases Nat.mod_two_eq_zero_or_one (b / 128) with h2 | h2 <;> simp [h2] at h ⊢ <;> omega

theorem and128_cases (b : Nat) : b &&& 128 = 0 ∨ b &&& 128 = 128 := by
  rw [and128_eq]
  rcases Nat.mod_two_eq_zero_or_one (b / 128) with h2 | h2 <;> simp [h2]

theorem and128_of_range (b : Nat) (h1 : 128 ≤ b) (h2 : b < 256) : b &&& 128 = 128 := by
  rw [and128_eq]
  have hq : b / 128 = 1 := by omega
  rw [hq]

theorem getD_zero_headI (l : List Nat) (h : l ≠ []) : l.getD 0 0 = l.headI := by
  cases l with
  | nil => simp at h
  | cons a t => rfl

theorem getD_append_right_my (l1 l2 : List Nat) (n : Nat) :
    (l1 ++ l2).getD (l1.length + n) 0 = l2.getD n 0 := by
  induction l1 with
  | nil => simp
  | cons a t ih =>
    simp only [List.cons_append, List.length_cons]
    rw [show t.length + 1 + n = (t.length + n) + 1 from by omega, List.getD_cons_succ]
    exact ih

theorem drop_append_my (l1 l2 : List Nat) (n : Nat) :
    (l1 ++ l2).drop (l1.length + n) = l2.drop n := by
  induction l1 with
  | nil => simp
  | cons a t ih =>
    simp only [List.cons_append, List.length_cons]
    rw [show t.length + 1 + n = (t.length + n) + 1 from by omega, List.drop_succ_cons]
    exact ih

theorem take_append_my (l1 l2 : List Nat) : (l1 ++ l2).take l1.length = l1 := by
  induction l1 with
  | nil => rfl
  | cons a t ih =>
    simp only [List.cons_append, List.length_cons, List.take_succ_cons]
    rw [ih]

theorem canonicalIntBytes_eq (x : Nat) :
    canonicalIntBytes x = if (toBytesBE (pyByteLen x) x).headI &&& 128 ≠ 0
      then 0 :: toBytesBE (pyByteLen x) x else toBytesBE (pyByteLen x) x := rfl

theorem toBytesBE_pyByteLen_headI_pos (x : Nat) (h : 1 ≤ x) :
    (toBytesBE (pyByteLen x) x).headI ≠ 0 := by
  obtain ⟨m, hm⟩ : ∃ m, pyByteLen x = m + 1 := ⟨pyByteLen x - 1, by have := pyByteLen_pos x; omega⟩
  have hx : x < 256 ^ (m + 1) := by rw [← hm]; exact lt_pow_pyByteLen x
  have hlow : 256 ^ m ≤ x := by
    have := pow_pyByteLen_le x h
    rw [hm] at this
    simpa using this
  rw [hm, toBytesBE_headI m x hx]
  have : 1 ≤ x / 256 ^ m := (Nat.one_le_div_iff (Nat.pos_pow_of_pos m (by norm_num))).mpr hlow
  omega

theorem canonicalIntBytes_len_ge (x : Nat) : pyByteLen x ≤ (canonicalIntBytes x).length := by
  rw [canonicalIntBytes_eq]
  split <;> simp [toBytesBE_length]

theorem canonicalIntBytes_spec (x : Nat) (h1 : 1 ≤ x) (h2 : x < 2 ^ 256) :
    fromBytesBE (canonicalIntBytes x) = x ∧
    1 ≤ (canonicalIntBytes x).length ∧ (canonicalIntBytes x).length ≤ 33 ∧
    (canonicalIntBytes x).headI &&& 128 = 0 ∧
    ¬(1 < (canonicalIntBytes x).length ∧ (canonicalIntBytes x).headI = 0 ∧
      (canonicalIntBytes x).getD 1 0 &&& 128 ≠ 128) := by
  have hlen : (toBytesBE (pyByteLen x) x).length = pyByteLen x := toBytesBE_length _ _
  have hne : toBytesBE (pyByteLen x) x ≠ [] := by
    intro hc
    have := pyByteLen_pos x
    rw [hc] at hlen
    simp at hlen
    omega
  have hfrom : fromBytesBE (toBytesBE (pyByteLen x) x) = x :=
    fromBytesBE_toBytesBE _ _ (lt_pow_pyByteLen x)
  have hhead : (toBytesBE (pyByteLen x) x).headI ≠ 0 := toBytesBE_pyByteLen_headI_pos x h1
  have hb32 : pyByteLen x ≤ 32 := pyByteLen_le_32 x h2
  have hb1 : 1 ≤ pyByteLen x := pyByteLen_pos x
  rw [canonicalIntBytes_eq]
  split
  case isTrue hc =>
    refine ⟨by rw [fromBytesBE_cons_zero]; exact hfrom, ?_, ?_, ?_, ?_⟩
    · simp
    · simp [hlen]; omega
    · simp
    · intro ⟨_, _, hpad⟩
      apply hpad
      have : (toBytesBE (pyByteLen x) x).getD 0 0 = (toBytesBE (pyByteLen x) x).headI :=
        getD_zero_headI _ hne
      rw [List.getD_cons_succ, this]
      rcases and128_cases (toBytesBE (pyByteLen x) x).headI with h | h
      · exact absurd h hc
      · exact h
  case isFalse hc =>
    push_neg at hc
    refine ⟨hfrom, ?_, ?_, hc, ?_⟩
    · rw [hlen]; omega
    · rw [hlen]; omega
    · intro ⟨_, hz, _⟩
      exact hhead hz

theorem canonicalIntBytes_len3 (x : Nat) (h : 2 ^ 15 ≤ x) (h2 : x < 2 ^ 256) :
    3 ≤ (canonicalIntBytes x).length := by
  have hp2 := pyByteLen_ge_2 x h
  by_cases h3 : 3 ≤ pyByteLen x
  · have := canonicalIntBytes_len_ge x
    omega
  · have he : pyByteLen x = 2 := by omega
    have hlt : x < 2 ^ 16 := pyByteLen_two_lt x he
    have hh : (toBytesBE (pyByteLen x) x).headI = x / 256 := by
      rw [he]
      exact toBytesBE_headI 1 x (by norm_num; omega)
    have hhi : 128 ≤ x / 256 := by omega
    have hhi2 : x / 256 < 256 := by omega
    rw [canonicalIntBytes_eq, if_pos]
    · simp [toBytesBE_length, he]
    · rw [hh, and128_of_range _ hhi hhi2]
      norm_num

/-! ## The DER round trip -/

theorem derDecode_frame (rb sb : List Nat) (r s : Nat)
    (hrF : fromBytesBE rb = r) (hsF : fromBytesBE sb = s)
    (hrlen1 : 1 ≤ rb.length) (hrlen33 : rb.length ≤ 33)
    (hslen3 : 3 ≤ sb.length) (hslen33 : sb.length ≤ 33)
    (hrneg : rb.headI &&& 128 = 0)
    (hrpad : ¬(1 < rb.length ∧ rb.headI = 0 ∧ rb.getD 1 0 &&& 128 ≠ 128))
    (hsneg : sb.headI &&& 128 = 0)
    (hspad : ¬(1 < sb.length ∧ sb.headI = 0 ∧ sb.getD 1 0 &&& 128 ≠ 128))
    (hr1 : 1 ≤ r) (hrn : r < secpN) (hs1 : 1 ≤ s) (hsn : s < secpN) :
    derDecode ([48, 4 + rb.length + sb.length, 2, rb.length] ++ (rb ++ ([2, sb.length] ++ sb)))
      = .ok ⟨r, s, none⟩ := by
  have F0 : ([48, 4 + rb.length + sb.length, 2, rb.length] ++
      (rb ++ ([2, sb.length] ++ sb))).getD 0 0 = 48 := rfl
  have F1 : ([48, 4 + rb.length + sb.length, 2, rb.length] ++
      (rb ++ ([2, sb.length] ++ sb))).getD 1 0 = 4 + rb.length + sb.length := rfl
  have F2 : ([48, 4 + rb.length + sb.length, 2, rb.length] ++
      (rb ++ ([2, sb.length] ++ sb))).getD 2 0 = 2 := rfl
  have F3 : ([48, 4 + rb.length + sb.length, 2, rb.length] ++
      (rb ++ ([2, sb.length] ++ sb))).getD 3 0 = rb.length := rfl
  have Flen : ([48, 4 + rb.length + sb.length, 2, rb.length] ++
      (rb ++ ([2, sb.length] ++ sb))).length = 6 + rb.length + sb.length := by
    simp only [List.length_append, List.length_cons, List.length_nil]
    omega
  have Fdrop2 : (([48, 4 + rb.length + sb.length, 2, rb.length] ++
      (rb ++ ([2, sb.length] ++ sb))).drop 2).length = 4 + rb.length + sb.length := by
    rw [List.length_drop, Flen]
    omega
  have Fslice : (([48, 4 + rb.length + sb.length, 2, rb.length] ++
      (rb ++ ([2, sb.length] ++ sb))).drop 4).take rb.length = rb := by
    have h : ([48, 4 + rb.length + sb.length, 2, rb.length] ++
        (rb ++ ([2, sb.length] ++ sb))).drop 4 = rb ++ ([2, sb.length] ++ sb) := rfl
    rw [h]
    exact take_append_my rb ([2, sb.length] ++ sb)
  have hassoc : [48, 4 + rb.length + sb.length, 2, rb.length] ++ (rb ++ ([2, sb.length] ++ sb))
      = ([48, 4 + rb.length + sb.length, 2, rb.length] ++ rb) ++ ([2, sb.length] ++ sb) :=
    (List.append_assoc _ _ _).symm
  have hlen1 : ([48, 4 + rb.length + sb.length, 2, rb.length] ++ rb).length = 4 + rb.length := by
    simp only [List.length_append, List.length_cons, List.length_nil]
  have Fmagic : ([48, 4 + rb.length + sb.length, 2, rb.length] ++
      (rb ++ ([2, sb.length] ++ sb))).getD (4 + rb.length) 0 = 2 := by
    rw [hassoc]
    have h2 := getD_append_right_my ([48, 4 + rb.length + sb.length, 2, rb.length] ++ rb)
      ([2, sb.length] ++ sb) 0
    rw [hlen1] at h2
    simpa using h2
  have Fslen : ([48, 4 + rb.length + sb.length, 2, rb.length] ++
      (rb ++ ([2, sb.length] ++ sb))).getD (4 + rb.length + 1) 0 = sb.length := by
    rw [hassoc]
    have h2 := getD_append_right_my ([48, 4 + rb.length + sb.length, 2, rb.length] ++ rb)
      ([2, sb.length] ++ sb) 1
    rw [hlen1] at h2
    simpa using h2
  have Fsdrop : ([48, 4 + rb.length + sb.length, 2, rb.length] ++
      (rb ++ ([2, sb.length] ++ sb))).drop (4 + rb.length + 1 + 1) = sb := by
    rw [hassoc]
    have h2 := drop_append_my ([48, 4 + rb.length + sb.length, 2, rb.length] ++ rb)
      ([2, sb.length] ++ sb) 2
    rw [hlen1] at h2
    rw [show 4 + rb.length + 1 + 1 = 4 + rb.length + 2 from by omega]
    simpa using h2
  unfold derDecode
  simp only [F0, F1, F2, F3, Flen, Fdrop2, Fslice, Fmagic, Fslen, Fsdrop, hrF, hsF, hrneg, hsneg]
  have c1 : ¬(6 + rb.length + sb.length < 8) := by omega
  have c2 : ¬((48:Nat) ≠ 48) := by omega
  have c3 : ¬(4 + rb.length + sb.length ≠ 4 + rb.length + sb.length) := by omega
  have c4 : ¬((2:Nat) ≠ 2) := by omega
  have c5 : ¬(rb.length = 0 ∨ 4 + rb.length + sb.length - 7 < rb.length) := by omega
  have c6 : ¬((0:Nat) ≠ 0) := by omega
  have c9 : ¬(sb.length = 0 ∨
      6 + rb.length + sb.length - (4 + rb.length + 1 + 1) < sb.length) := by omega
  have c12 : ¬(r < 1 ∨ secpN ≤ r) := by omega
  have c13 : ¬(s < 1 ∨ secpN ≤ s) := by omega
  simp only [if_neg c1, if_neg c2, if_neg c3, if_neg c4, if_neg c5, if_neg c6, if_neg hrpad,
    if_neg c9, if_neg hspad, if_neg c12, if_neg c13]

/-- Claim C1 (corrected): for every pair `r, s` with `1 ≤ r < n` and
`1 ≤ s < n` whose canonical encoding of `s` occupies at least 3 bytes
(equivalently `2 ^ 15 ≤ s`), `Signature.from_der (Signature.to_der
(Signature r s))` succeeds and returns a signature with the same `r` and
`s` components.  The unrestricted claim is false: the decoder bounds the
r-length by `total_length - 7`, which rejects every DER blob whose s-field
is shorter than 3 bytes, including the encoder's own output (see the
counterexample). -/
theorem c1_der_roundtrip_amended (r s : Nat) (hr1 : 1 ≤ r) (hrn : r < secpN)
    (hs1 : 1 ≤ s) (hsn : s < secpN) (hsbig : 2 ^ 15 ≤ s) :
    Signature.from_der (.bytes (Signature.to_der ⟨r, s, none⟩)) = .ok ⟨r, s, none⟩ := by
  have hn256 : secpN < 2 ^ 256 := by decide
  have hr256 : r < 2 ^ 256 := Nat.lt_trans hrn hn256
  have hs256 : s < 2 ^ 256 := Nat.lt_trans hsn hn256
  obtain ⟨hrF, hrlen1, hrlen33, hrneg, hrpad⟩ := canonicalIntBytes_spec r hr1 hr256
  obtain ⟨hsF, hslen1, hslen33, hsneg, hspad⟩ := canonicalIntBytes_spec s hs1 hs256
  have hslen3 := canonicalIntBytes_len3 s hsbig hs256
  have hder : Signature.to_der ⟨r, s, none⟩
      = [48, 4 + (canonicalIntBytes r).length + (canonicalIntBytes s).length, 2,
          (canonicalIntBytes r).length] ++
        (canonicalIntBytes r ++ ([2, (canonicalIntBytes s).length] ++ canonicalIntBytes s)) := by
    have h0 : Signature.to_der ⟨r, s, none⟩
        = (([48, 6 + (canonicalIntBytes r).length + (canonicalIntBytes s).length - 2, 2,
            (canonicalIntBytes r).length] ++ canonicalIntBytes r) ++
           [2, (canonicalIntBytes s).length]) ++ canonicalIntBytes s :=
      rfl
    rw [h0, show 6 + (canonicalIntBytes r).length + (canonicalIntBytes s).length - 2
        = 4 + (canonicalIntBytes r).length + (canonicalIntBytes s).length from by omega]
    simp only [List.append_assoc]
  show derDecode (Signature.to_der ⟨r, s, none⟩) = Except.ok ⟨r, s, none⟩
  rw [hder]
  exact derDecode_frame (canonicalIntBytes r) (canonicalIntBytes s) r s hrF hsF hrlen1 hrlen33
    hslen3 hslen33 hrneg hrpad hsneg hspad hr1 hrn hs1 hsn

/-- Witness for the amended claim C1 at the concrete point `r = 1`,
`s = 32768`. -/
theorem c1_der_roundtrip_amended_witness :
    Signature.from_der (.bytes (Signature.to_der ⟨1, 32768, none⟩)) = .ok ⟨1, 32768, none⟩ :=
  c1_der_roundtrip_amended 1 32768 (by decide) (by decide) (by decide) (by decide) (by decide)

/-- Counterexample to claim C1 as stated: `r = 1` and `s = 1` lie in
`[1, n-1]`, yet the decoder rejects the encoder's own output for them with
the incorrect-r-length error. -/
theorem c1_der_roundtrip_counterexample :
    (1 ≤ 1 ∧ 1 < secpN) ∧
    Signature.from_der (.bytes (Signature.to_der ⟨1, 1, none⟩))
      = .error (.valueError "DER signature incorrect r length.") := by
  decide

/-- Claim C2 (code bug): the encoder maps `Signature(1, 2)` to exactly the
DER bytes `30 06 02 01 01 02 01 02`, yet `from_der` rejects those very
bytes with the incorrect-r-length error instead of decoding them to
`Signature(r=1, s=2)` as the spec's concrete scenario requires. -/
theorem c2_der_concrete_scenario_rejected :
    Signature.to_der ⟨1, 2, none⟩ = [0x30, 0x06, 0x02, 0x01, 0x01, 0x02, 0x01, 0x02] ∧
    Signature.from_der (.bytes [0x30, 0x06, 0x02, 0x01, 0x01, 0x02, 0x01, 0x02])
      = .error (.valueError "DER signature incorrect r length.") := by
  decide

/-- Claim C3 (code bug): an otherwise well-formed DER input whose second
length byte declares 1 byte of `s` but which carries 3 trailing bytes is
accepted by `from_der`, with `s` read from all 3 remaining bytes
(`s = 0x010001 = 65537`), rather than rejected. -/
theorem c3_slen_overrun_accepted :
    Signature.from_der (.bytes [0x30, 0x08, 0x02, 0x01, 0x01, 0x02, 0x01, 0x01, 0x00, 0x01])
      = .ok ⟨1, 65537, none⟩ := by
  decide

theorem bind_ok_my {ε α β : Type} (a : α) (f : α → Except ε β) :
    (Except.ok a : Except ε α) >>= f = f a := rfl

theorem bind_error_my {ε α β : Type} (e : ε) (f : α → Except ε β) :
    (Except.error e : Except ε α) >>= f = Except.error e := rfl

/-- Claim C4 (corrected): `PrivateKey.__init__` (and `from_int`, which just
calls it) performs no range validation at all.  For any collaborator that
returns an on-curve point and any scalar `k` whatsoever — in range or not —
construction succeeds and the object holds exactly the scalar passed in. -/
theorem c4_private_key_no_range_check (public_key_fn : Nat → Nat × Nat) (k : Nat)
    (h : isOnCurvePt (public_key_fn k) = true) :
    ∃ pk : PrivKey, privateKeyInit public_key_fn k = .ok pk ∧
      privateKeyFromInt public_key_fn k = .ok pk ∧ pk.key = k := by
  refine ⟨⟨k, ⟨public_key_fn k⟩⟩, ?_, ?_, rfl⟩ <;>
    simp [privateKeyFromInt, privateKeyInit, publicKeyFromPoint, publicKeyInit, h, bind_ok_my]

/-- Witness for the corrected claim C4 at the out-of-range scalar `k = 0`,
with a collaborator returning the base point. -/
theorem c4_private_key_no_range_check_witness :
    ∃ pk : PrivKey, privateKeyInit (fun _ => (secpGx, secpGy)) 0 = .ok pk ∧
      privateKeyFromInt (fun _ => (secpGx, secpGy)) 0 = .ok pk ∧ pk.key = 0 :=
  c4_private_key_no_range_check (fun _ => (secpGx, secpGy)) 0 (by decide)

/-- Counterexample to claim C4 as stated: `k = n + 1` lies outside
`[1, n-1]`, yet construction through the genuine secp256k1 scalar
multiplication model succeeds — `(n+1)·G` is the base point — and the
resulting object stores the out-of-range scalar. -/
theorem c4_private_key_range_counterexample :
    secpN ≤ secpN + 1 ∧
    privateKeyInit bitcoinPublicKey (secpN + 1) = .ok ⟨secpN + 1, ⟨(secpGx, secpGy)⟩⟩ := by
  constructor
  · omega
  · decide

/-- Claim C5 (confirmed): `PublicKey.from_bytes` returns a null result (not
an error) for every non-empty input whose first byte is not `0x02`, `0x03`
or `0x04`; with prefix `0x04` it fails unless the input is exactly 65
bytes; with prefix `0x02` or `0x03` it fails unless the input is exactly
33 bytes. -/
theorem c5_from_bytes_prefix_dispatch (b : List Nat) (hne : b ≠ []) :
    (b.headI ≠ 2 ∧ b.headI ≠ 3 ∧ b.headI ≠ 4 → publicKeyFromBytes (.bytes b) = .ok none) ∧
    (b.headI = 4 → b.length ≠ 65 → publicKeyFromBytes (.bytes b)
      = .error (.valueError "key_bytes must be exactly 65 bytes long when uncompressed.")) ∧
    ((b.headI = 2 ∨ b.headI = 3) → b.length ≠ 33 → publicKeyFromBytes (.bytes b)
      = .error (.valueError "key_bytes must be exactly 33 bytes long when compressed.")) := by
  cases b with
  | nil => simp at hne
  | cons a t =>
    have hat : pyAt (a :: t) 0 = .ok a := by
      unfold pyAt
      rw [if_pos (by simp)]
      rfl
    refine ⟨?_, ?_, ?_⟩
    · intro ⟨h2, h3, h4⟩
      simp only [List.headI] at h2 h3 h4
      simp [publicKeyFromBytes, get_bytes, hat, h2, h3, h4, bind_ok_my]
    · intro h4 hlen
      simp only [List.headI] at h4
      subst h4
      have hlen64 : t.length ≠ 64 := by
        simp only [List.length_cons] at hlen
        omega
      simp [publicKeyFromBytes, get_bytes, hat, hlen64, bind_ok_my]
    · intro h23 hlen
      simp only [List.headI] at h23
      have hlen32 : t.length ≠ 32 := by
        simp only [List.length_cons] at hlen
        omega
      rcases h23 with h2 | h3
      · subst h2
        simp [publicKeyFromBytes, get_bytes, hat, hlen32, bind_ok_my]
      · subst h3
        simp [publicKeyFromBytes, get_bytes, hat, hlen32, bind_ok_my]

/-- Witness for claim C5 at the concrete inputs `05`, `04 00` and `02 00`:
unknown prefix gives the null result, wrong-length uncompressed and
compressed inputs give the two distinct failures. -/
theorem c5_from_bytes_prefix_dispatch_witness :
    publicKeyFromBytes (.bytes [5]) = .ok none ∧
    publicKeyFromBytes (.bytes [4, 0])
      = .error (.valueError "key_bytes must be exactly 65 bytes long when uncompressed.") ∧
    publicKeyFromBytes (.bytes [2, 0])
      = .error (.valueError "key_bytes must be exactly 33 bytes long when compressed.") := by
  refine ⟨?_, ?_, ?_⟩
  · exact (c5_from_bytes_prefix_dispatch [5] (by decide)).1 (by decide)
  · exact (c5_from_bytes_prefix_dispatch [4, 0] (by decide)).2.1 (by decide) (by decide)
  · exact (c5_from_bytes_prefix_dispatch [2, 0] (by decide)).2.2 (by decide) (by decide)

/-- Claim C9 (confirmed): `PublicKey.from_bytes` applied to the empty byte
string or the empty hex string raises `IndexError` — the prefix byte
`b[0]` is read before any length check — which is a distinct outcome from
both the null result `ok none` and every named `ValueError` failure. -/
theorem c9_from_bytes_empty_index_error :
    publicKeyFromBytes (.bytes []) = .error .indexError ∧
    publicKeyFromBytes (.str []) = .error .indexError := by
  decide

/-! ## Bitcoin-message signing and verification -/

theorem pyByte_ofNat (n : Nat) (h : n < 256) : pyByte (n : Int) = .ok n := by
  unfold pyByte
  rw [if_pos ⟨Int.natCast_nonneg n, by exact_mod_cast h⟩]
  simp

theorem pyByte_magic (rid : Nat) (h : rid ≤ 3) : pyByte (27 + (rid : Int)) = .ok (27 + rid) := by
  unfold pyByte
  rw [if_pos ⟨by positivity, by exact_mod_cast (show 27 + rid < 256 from by omega)⟩]
  have ht : (27 + (rid : Int)).toNat = 27 + rid := by omega
  rw [ht]

theorem pyAt_zero (l : List Nat) (h : l ≠ []) : pyAt l 0 = .ok (l.getD 0 0) := by
  unfold pyAt
  rw [if_pos]
  cases l with
  | nil => simp at h
  | cons a t => simp

theorem intToBytes32_lt (x : Nat) (h : x < secpN) : intToBytes x 32 = .ok (toBytesBE 32 x) := by
  have hp : secpN < 256 ^ 32 := by decide
  unfold intToBytes
  rw [if_pos (by omega)]

theorem sign_bitcoin_core (S : CurveSign)
    (hS : ∀ m k b, (S m k b).2 ≤ 3 ∧ 1 ≤ (S m k b).1.1 ∧ (S m k b).1.1 < secpN ∧
      1 ≤ (S m k b).1.2 ∧ (S m k b).1.2 < secpN)
    (key : Nat) (message : PyData) (msg_in : List Nat)
    (hmi : (match message with
      | .str s =>
        if s.all (fun c => c < 128) then Except.ok s else Except.error PyError.unicodeEncodeError
      | .bytes b => Except.ok b) = .ok msg_in)
    (hlen : msg_in.length < 256) :
    sign_bitcoin S key message = .ok (b64encode
      ((27 + (S (sha256 (bsmHeader ++ [msg_in.length] ++ msg_in)) key true).2)
        :: (toBytesBE 32 ((S (sha256 (bsmHeader ++ [msg_in.length] ++ msg_in)) key true).1.1)
          ++ toBytesBE 32 ((S (sha256 (bsmHeader ++ [msg_in.length] ++ msg_in)) key true).1.2)))) := by
  obtain ⟨h3, hr1, hrn, hs1, hsn⟩ := hS (sha256 (bsmHeader ++ [msg_in.length] ++ msg_in)) key true
  unfold sign_bitcoin signSig raw_sign signatureBytes
  rw [hmi]
  simp only [bind_ok_my, pyByte_ofNat msg_in.length hlen]
  simp only [bind_ok_my, pyByte_magic _ h3, sigComponentBytes,
    show (256 + 7) / 8 = 32 from rfl]
  simp only [intToBytes32_lt _ hrn, intToBytes32_lt _ hsn, bind_ok_my]
  simp

/-- Claim C7 (confirmed; the curve signing primitive is modelled from the
spec interface, which promises a recovery index in `{0,1,2,3}` and
components in `[1, n-1]`): for every byte message shorter than 256 bytes,
`sign_bitcoin` returns the Base64 encoding of a 65-byte string whose first
byte is `27 + recoveryId` (hence in 27..30) and whose remaining 64 bytes
are the fixed-width `r(32) ‖ s(32)` signature, where the digest handed to
the signing primitive is the SHA-256 of
`0x18 ‖ "Bitcoin Signed Message:\n" ‖ lengthByte ‖ message`. -/
theorem c7_sign_bitcoin_envelope (S : CurveSign)
    (hS : ∀ m k b, (S m k b).2 ≤ 3 ∧ 1 ≤ (S m k b).1.1 ∧ (S m k b).1.1 < secpN ∧
      1 ≤ (S m k b).1.2 ∧ (S m k b).1.2 < secpN)
    (key : Nat) (msg : List Nat) (hlen : msg.length < 256) :
    ∃ r s rid,
      S (sha256 (bsmHeader ++ [msg.length] ++ msg)) key true = ((r, s), rid) ∧
      sign_bitcoin S key (.bytes msg)
        = .ok (b64encode ((27 + rid) :: (toBytesBE 32 r ++ toBytesBE 32 s))) ∧
      27 ≤ 27 + rid ∧ 27 + rid ≤ 30 ∧
      ((27 + rid) :: (toBytesBE 32 r ++ toBytesBE 32 s)).length = 65 := by
  obtain ⟨h3, hr1, hrn, hs1, hsn⟩ := hS (sha256 (bsmHeader ++ [msg.length] ++ msg)) key true
  refine ⟨(S (sha256 (bsmHeader ++ [msg.length] ++ msg)) key true).1.1,
    (S (sha256 (bsmHeader ++ [msg.length] ++ msg)) key true).1.2,
    (S (sha256 (bsmHeader ++ [msg.length] ++ msg)) key true).2, rfl, ?_, by omega, by omega, ?_⟩
  · exact sign_bitcoin_core S hS key (.bytes msg) msg rfl hlen
  · simp [toBytesBE_length]

/-- Witness for claim C7 with the constant spec-conformant signing
primitive `((1, 1), 0)`, key 0 and the empty message. -/
theorem c7_sign_bitcoin_envelope_witness :
    ∃ r s rid,
      (((1:Nat), (1:Nat)), (0:Nat)) = ((r, s), rid) ∧
      sign_bitcoin (fun _ _ _ => ((1, 1), 0)) 0 (.bytes [])
        = .ok (b64encode ((27 + rid) :: (toBytesBE 32 r ++ toBytesBE 32 s))) ∧
      27 ≤ 27 + rid ∧ 27 + rid ≤ 30 ∧
      ((27 + rid) :: (toBytesBE 32 r ++ toBytesBE 32 s)).length = 65 :=
  c7_sign_bitcoin_envelope (fun _ _ _ => ((1, 1), 0))
    (by
      intro m k b
      show (0:Nat) ≤ 3 ∧ 1 ≤ (1:Nat) ∧ (1:Nat) < secpN ∧ 1 ≤ (1:Nat) ∧ (1:Nat) < secpN
      decide) 0 []
    (by decide)

theorem verify_bitcoin_bytes_eq (R : RecoverFn) (V : VerifyFn) (mb sb m : List Nat)
    (hb : b64decode (.bytes sb) = .ok m) (hm : m ≠ []) (hlen : mb.length < 256) :
    verify_bitcoin R V (.bytes mb) (.bytes sb)
      = (publicKeyFromSignature R (.bytes (sha256 (bsmHeader ++ [mb.length] ++ mb)))
          ⟨fromBytesBE ((m.drop 1).take 32), fromBytesBE (((m.drop 1).drop 32).take 32),
            some ((m.getD 0 0 : Int) - 27)⟩) >>=
        (fun derived => match derived with
          | none => .error (.valueError "Could not recover public key from the provided signature.")
          | some pk => .ok (V (sha256 (bsmHeader ++ [mb.length] ++ mb))
              ⟨fromBytesBE ((m.drop 1).take 32), fromBytesBE (((m.drop 1).drop 32).take 32),
                some ((m.getD 0 0 : Int) - 27)⟩ pk.point true)) := by
  unfold verify_bitcoin
  simp only [get_bytes, bind_ok_my, hb, pyAt_zero m hm]
  simp only [bind_ok_my, Signature.fromBytes64, pyLen, pyByte_ofNat mb.length hlen]
  simp only [bind_ok_my, publicKeyVerify, get_bytes]

/-- Claim C6 (confirmed; the recovery and verification primitives are
modelled from the spec interface): in `verify_bitcoin`, once the Base64
signature decodes to a non-empty byte string and the message is a byte
string shorter than 256 bytes, failure to recover a public key is a hard
`ValueError`, while a recovered key makes the function return the
collaborator's boolean verdict — so a mere verification mismatch yields
`false`, never an exception. -/
theorem c6_verify_bitcoin_recovery (R : RecoverFn) (V : VerifyFn) (mb sb m : List Nat)
    (hb : b64decode (.bytes sb) = .ok m) (hm : m ≠ []) (hlen : mb.length < 256) :
    (publicKeyFromSignature R (.bytes (sha256 (bsmHeader ++ [mb.length] ++ mb)))
        ⟨fromBytesBE ((m.drop 1).take 32), fromBytesBE (((m.drop 1).drop 32).take 32),
          some ((m.getD 0 0 : Int) - 27)⟩ = .ok none →
      verify_bitcoin R V (.bytes mb) (.bytes sb)
        = .error (.valueError "Could not recover public key from the provided signature.")) ∧
    (∀ pk : PubKey, publicKeyFromSignature R (.bytes (sha256 (bsmHeader ++ [mb.length] ++ mb)))
        ⟨fromBytesBE ((m.drop 1).take 32), fromBytesBE (((m.drop 1).drop 32).take 32),
          some ((m.getD 0 0 : Int) - 27)⟩ = .ok (some pk) →
      verify_bitcoin R V (.bytes mb) (.bytes sb)
        = .ok (V (sha256 (bsmHeader ++ [mb.length] ++ mb))
            ⟨fromBytesBE ((m.drop 1).take 32), fromBytesBE (((m.drop 1).drop 32).take 32),
              some ((m.getD 0 0 : Int) - 27)⟩ pk.point true)) := by
  have hcore := verify_bitcoin_bytes_eq R V mb sb m hb hm hlen
  constructor
  · intro h
    rw [hcore, h]
    rfl
  · intro pk h
    rw [hcore, h]
    rfl

/-- Witness for claim C6: with a recovery collaborator returning no
candidates and a 65-zero-byte Base64 signature, the no-key arm fires and
`verify_bitcoin` is the hard `ValueError`; the recovered-key arm holds
vacuously. -/
theorem c6_verify_bitcoin_recovery_witness :
    (publicKeyFromSignature (fun _ _ _ => [])
        (.bytes (sha256 (bsmHeader ++ [(0:Nat)] ++ [])))
        ⟨fromBytesBE (((List.replicate 65 0).drop 1).take 32),
          fromBytesBE ((((List.replicate 65 0).drop 1).drop 32).take 32),
          some (((List.replicate 65 0).getD 0 0 : Int) - 27)⟩ = .ok none →
      verify_bitcoin (fun _ _ _ => []) (fun _ _ _ _ => false) (.bytes [])
          (.bytes (b64encode (List.replicate 65 0)))
        = .error (.valueError "Could not recover public key from the provided signature.")) ∧
    (∀ pk : PubKey, publicKeyFromSignature (fun _ _ _ => [])
        (.bytes (sha256 (bsmHeader ++ [(0:Nat)] ++ [])))
        ⟨fromBytesBE (((List.replicate 65 0).drop 1).take 32),
          fromBytesBE ((((List.replicate 65 0).drop 1).drop 32).take 32),
          some (((List.replicate 65 0).getD 0 0 : Int) - 27)⟩ = .ok (some pk) →
      verify_bitcoin (fun _ _ _ => []) (fun _ _ _ _ => false) (.bytes [])
          (.bytes (b64encode (List.replicate 65 0)))
        = .ok ((fun _ _ _ _ => false) (sha256 (bsmHeader ++ [(0:Nat)] ++ []))
            (⟨fromBytesBE (((List.replicate 65 0).drop 1).take 32),
              fromBytesBE ((((List.replicate 65 0).drop 1).drop 32).take 32),
              some (((List.replicate 65 0).getD 0 0 : Int) - 27)⟩ : Signature) pk.point true)) :=
  c6_verify_bitcoin_recovery (fun _ _ _ => []) (fun _ _ _ _ => false) [] _ _
    (by decide) (by decide) (by decide)

/-- Claim C10 (corrected): `verify_bitcoin` accepts the message only as a
byte sequence — for every text-string message shorter than 256 characters
it raises `TypeError` during preimage reconstruction, after the signature
has been Base64-decoded and split but before any key recovery or
verification is attempted — while `sign_bitcoin` accepts both text
(ASCII, shorter than 256) and byte messages.  The length restriction is
forced: for a text message of 256 or more characters the one-byte length
write fails first with `ValueError` instead (see the counterexample). -/
theorem c10_verify_bitcoin_str_type_error (R : RecoverFn) (V : VerifyFn) (S : CurveSign)
    (hS : ∀ m k b, (S m k b).2 ≤ 3 ∧ 1 ≤ (S m k b).1.1 ∧ (S m k b).1.1 < secpN ∧
      1 ≤ (S m k b).1.2 ∧ (S m k b).1.2 < secpN)
    (key : Nat) (s sb m bmsg : List Nat)
    (hb : b64decode (.bytes sb) = .ok m) (hm : m ≠ [])
    (hslen : s.length < 256) (hascii : ∀ c ∈ s, c < 128) (hblen : bmsg.length < 256) :
    verify_bitcoin R V (.str s) (.bytes sb)
      = .error (.typeError "cannot concatenate str to bytes") ∧
    exceptOk (sign_bitcoin S key (.str s)) = true ∧
    exceptOk (sign_bitcoin S key (.bytes bmsg)) = true := by
  have hall : s.all (fun c => c < 128) = true := by
    rw [List.all_eq_true]
    intro c hc
    simpa using hascii c hc
  refine ⟨?_, ?_, ?_⟩
  · unfold verify_bitcoin
    simp only [get_bytes, bind_ok_my, hb, pyAt_zero m hm]
    simp only [bind_ok_my, pyLen, pyByte_ofNat s.length hslen]
    simp only [bind_ok_my, bind_error_my]
  · rw [sign_bitcoin_core S hS key (.str s) s (by simp [hall]) hslen]
    rfl
  · rw [sign_bitcoin_core S hS key (.bytes bmsg) bmsg rfl hblen]
    rfl

/-- Witness for the corrected claim C10 at the one-character text message
`"a"`, the empty byte message and a 65-zero-byte Base64 signature. -/
theorem c10_verify_bitcoin_str_type_error_witness :
    verify_bitcoin (fun _ _ _ => []) (fun _ _ _ _ => false) (.str [97])
        (.bytes (b64encode (List.replicate 65 0)))
      = .error (.typeError "cannot concatenate str to bytes") ∧
    exceptOk (sign_bitcoin (fun _ _ _ => ((1, 1), 0)) 0 (.str [97])) = true ∧
    exceptOk (sign_bitcoin (fun _ _ _ => ((1, 1), 0)) 0 (.bytes [])) = true :=
  c10_verify_bitcoin_str_type_error (fun _ _ _ => []) (fun _ _ _ _ => false)
    (fun _ _ _ => ((1, 1), 0))
    (by
      intro m k b
      show (0:Nat) ≤ 3 ∧ 1 ≤ (1:Nat) ∧ (1:Nat) < secpN ∧ 1 ≤ (1:Nat) ∧ (1:Nat) < secpN
      decide)
    0 [97] (b64encode (List.replicate 65 0)) (List.replicate 65 0) []
    (by decide) (by decide) (by decide) (by decide) (by decide)

/-- Counterexample to claim C10 as stated: with a 256-character text
message, `verify_bitcoin` fails at the one-byte length write with
`ValueError` — not with the claimed `TypeError` — before the
string-concatenation type check is reached. -/
theorem c10_long_str_counterexample :
    verify_bitcoin (fun _ _ _ => []) (fun _ _ _ _ => false)
        (.str (List.replicate 256 97)) (.bytes (b64encode (List.replicate 65 0)))
      = .error (.valueError "bytes must be in range(0, 256)") := by
  decide

/-! ## Base-conversion facts for the Base58 model -/

theorem natDigitsF_zero (f b : Nat) : natDigitsF f b 0 = [] := by
  cases f <;> simp [natDigitsF]

theorem lt_pow_base (b n : Nat) (hb : 2 ≤ b) : n < b ^ (n + 1) := by
  calc n < 2 ^ (n + 1) := lt_two_pow_succ n
    _ ≤ b ^ (n + 1) := Nat.pow_le_pow_left hb (n + 1)

theorem natDigitsF_congr : ∀ f g b n : Nat, 2 ≤ b → n < b ^ f → n < b ^ g →
    natDigitsF f b n = natDigitsF g b n := by
  intro f
  induction f with
  | zero =>
    intro g b n hb hf _
    norm_num at hf
    subst hf
    rw [natDigitsF_zero, natDigitsF_zero]
  | succ m ih =>
    intro g b n hb hf hg
    rcases Nat.eq_zero_or_pos n with h0 | hpos
    · subst h0
      rw [natDigitsF_zero, natDigitsF_zero]
    · cases g with
      | zero =>
        norm_num at hg
        omega
      | succ gg =>
        have hbpos : 0 < b := by omega
        have hfd : n / b < b ^ m := by
          rw [Nat.div_lt_iff_lt_mul hbpos]
          calc n < b ^ (m + 1) := hf
            _ = b ^ m * b := by ring
        have hgd : n / b < b ^ gg := by
          rw [Nat.div_lt_iff_lt_mul hbpos]
          calc n < b ^ (gg + 1) := hg
            _ = b ^ gg * b := by ring
        show natDigitsF (m + 1) b n = natDigitsF (gg + 1) b n
        rw [natDigitsF, natDigitsF, if_neg (by omega), if_neg (by omega),
          ih gg b (n / b) hb hfd hgd]

theorem natDigitsF_lt_base : ∀ f b n d : Nat, 2 ≤ b → d ∈ natDigitsF f b n → d < b := by
  intro f
  induction f with
  | zero =>
    intro b n d _ hd
    simp [natDigitsF] at hd
  | succ m ih =>
    intro b n d hb hd
    rw [natDigitsF] at hd
    split at hd
    · simp at hd
    · rcases List.mem_append.mp hd with h1 | h2
      · exact ih b (n / b) d hb h1
      · simp at h2
        subst h2
        exact Nat.mod_lt n (by omega)

theorem natDigitsF_head : ∀ f b n : Nat, 2 ≤ b → 1 ≤ n → n < b ^ f →
    ∃ d t, natDigitsF f b n = d :: t ∧ 1 ≤ d := by
  intro f
  induction f with
  | zero =>
    intro b n _ h1 hf
    norm_num at hf
    omega
  | succ m ih =>
    intro b n hb h1 hf
    have hbpos : 0 < b := by omega
    rw [natDigitsF, if_neg (by omega)]
    rcases Nat.eq_zero_or_pos (n / b) with h0 | hpos
    · rw [h0, natDigitsF_zero]
      have hnb : n < b := by
        by_contra hc
        push_neg at hc
        have := Nat.div_pos hc hbpos
        omega
      refine ⟨n % b, [], rfl, ?_⟩
      rw [Nat.mod_eq_of_lt hnb]
      exact h1
    · have hfd : n / b < b ^ m := by
        rw [Nat.div_lt_iff_lt_mul hbpos]
        calc n < b ^ (m + 1) := hf
          _ = b ^ m * b := by ring
      obtain ⟨d, t, hdt, hd1⟩ := ih b (n / b) hb hpos hfd
      exact ⟨d, t ++ [n % b], by rw [hdt]; rfl, hd1⟩

theorem natDigitsF_foldl : ∀ f b n a : Nat, 2 ≤ b → n < b ^ f →
    (natDigitsF f b n).foldl (fun x d => b * x + d) a
      = a * b ^ (natDigitsF f b n).length + n := by
  intro f
  induction f with
  | zero =>
    intro b n a _ hf
    norm_num at hf
    subst hf
    simp [natDigitsF_zero]
  | succ m ih =>
    intro b n a hb hf
    rcases Nat.eq_zero_or_pos n with h0 | hpos
    · subst h0
      simp [natDigitsF_zero]
    · have hbpos : 0 < b := by omega
      have hfd : n / b < b ^ m := by
        rw [Nat.div_lt_iff_lt_mul hbpos]
        calc n < b ^ (m + 1) := hf
          _ = b ^ m * b := by ring
      rw [natDigitsF, if_neg (by omega)]
      rw [List.foldl_append, ih b (n / b) a hb hfd]
      simp only [List.foldl_cons, List.foldl_nil, List.length_append, List.length_cons,
        List.length_nil]
      have hdm : b * (n / b) + n % b = n := Nat.div_add_mod n b
      set L := (natDigitsF m b (n / b)).length with hL
      calc b * (a * b ^ L + n / b) + n % b
          = a * (b ^ L * b) + (b * (n / b) + n % b) := by ring
        _ = a * b ^ (L + (0 + 1)) + n := by rw [hdm]; ring_nf
  
theorem fromBytesBE_cons (a : Nat) (t : List Nat) :
    fromBytesBE (a :: t) = a * 256 ^ t.length + fromBytesBE t := by
  show (a :: t).foldl (fun x d => 256 * x + d) 0 = _
  rw [List.foldl_cons]
  have h := fromBytesBE_acc t (256 * 0 + a)
  simpa using h

theorem fromBytesBE_pos (p : List Nat) (hne : p ≠ []) (hh : p.headI ≠ 0) :
    1 ≤ fromBytesBE p := by
  cases p with
  | nil => simp at hne
  | cons a t =>
    rw [fromBytesBE_cons]
    have ha : 1 ≤ a := by
      have : a ≠ 0 := by simpa using hh
      omega
    have hpow : 0 < 256 ^ t.length := Nat.pos_pow_of_pos _ (by norm_num)
    calc 1 ≤ a := ha
      _ ≤ a * 256 ^ t.length := Nat.le_mul_of_pos_right a hpow
      _ ≤ a * 256 ^ t.length + fromBytesBE t := by omega

theorem natToBytesMin_fromBytesBE : ∀ p : List Nat, p ≠ [] → p.headI ≠ 0 →
    (∀ x ∈ p, x < 256) → natToBytesMin (fromBytesBE p) = p := by
  intro p
  induction p using List.reverseRecOn with
  | nil => intro h; simp at h
  | append_singleton q x ih =>
    intro _ hh hb
    have hx : x < 256 := hb x (by simp)
    cases q with
    | nil =>
      simp only [List.nil_append] at hh ⊢
      have hx0 : x ≠ 0 := by simpa using hh
      show natDigitsF (fromBytesBE [x] + 1) 256 (fromBytesBE [x]) = [x]
      rw [fromBytesBE_single]
      rw [natDigitsF, if_neg hx0]
      rw [Nat.div_eq_of_lt hx, natDigitsF_zero, Nat.mod_eq_of_lt hx]
      rfl
    | cons a t =>
      have hq : (a :: t) ≠ [] := by simp
      have hhq : (a :: t).headI ≠ 0 := by simpa using hh
      have hbq : ∀ y ∈ a :: t, y < 256 := fun y hy => hb y (List.mem_append.mpr (Or.inl hy))
      have hNq : 1 ≤ fromBytesBE (a :: t) := fromBytesBE_pos _ hq hhq
      have hrec := ih hq hhq hbq
      have hN : fromBytesBE ((a :: t) ++ [x]) = fromBytesBE (a :: t) * 256 + x := by
        rw [fromBytesBE_append, fromBytesBE_single]
        simp
      show natDigitsF (fromBytesBE ((a :: t) ++ [x]) + 1) 256 (fromBytesBE ((a :: t) ++ [x]))
        = (a :: t) ++ [x]
      rw [hN]
      set Nq := fromBytesBE (a :: t) with hNqdef
      have hne0 : Nq * 256 + x ≠ 0 := by omega
      rw [show Nq * 256 + x + 1 = (Nq * 256 + x) + 1 from rfl, natDigitsF, if_neg hne0]
      have hdiv : (Nq * 256 + x) / 256 = Nq := by omega
      have hmod : (Nq * 256 + x) % 256 = x := by omega
      rw [hdiv, hmod]
      have hcongr : natDigitsF (Nq * 256 + x) 256 Nq = natDigitsF (Nq + 1) 256 Nq := by
        apply natDigitsF_congr (Nq * 256 + x) (Nq + 1) 256 Nq (by norm_num)
        · have h1 : Nq < 256 ^ (Nq + 1) := lt_pow_base 256 Nq (by norm_num)
          have h2 : Nq + 1 ≤ Nq * 256 + x := by omega
          calc Nq < 256 ^ (Nq + 1) := h1
            _ ≤ 256 ^ (Nq * 256 + x) := Nat.pow_le_pow_right (by norm_num) h2
        · exact lt_pow_base 256 Nq (by norm_num)
      rw [hcongr]
      show natToBytesMin Nq ++ [x] = (a :: t) ++ [x]
      rw [hrec]

theorem b58val_chars : ∀ d, d < 58 → b58val (b58chars.getD d 49) = some d := by decide

theorem b58chars_ne_one : ∀ d, 1 ≤ d → d < 58 → b58chars.getD d 49 ≠ 49 := by decide

theorem b58ToNatAcc_digits : ∀ (l : List Nat) (a : Nat), (∀ d ∈ l, d < 58) →
    b58ToNatAcc a (l.map (fun d => b58chars.getD d 49))
      = .ok (l.foldl (fun x d => 58 * x + d) a) := by
  intro l
  induction l with
  | nil => intro a _; rfl
  | cons d t ih =>
    intro a h
    have hd : d < 58 := h d (by simp)
    show b58ToNatAcc a (b58chars.getD d 49 :: t.map (fun d => b58chars.getD d 49)) = _
    rw [b58ToNatAcc, b58val_chars d hd]
    show b58ToNatAcc (58 * a + d) (t.map (fun d => b58chars.getD d 49))
      = Except.ok (List.foldl (fun x d => 58 * x + d) a (d :: t))
    rw [ih (58 * a + d) (fun y hy => h y (by simp [hy]))]
    rfl

theorem compressRound_length (st : List Nat) (kw : Nat × Nat) :
    (compressRound st kw).length = st.length := by
  unfold compressRound
  split
  · simp
  · rfl

theorem foldl_compressRound_length (l : List (Nat × Nat)) (st : List Nat) :
    (l.foldl compressRound st).length = st.length := by
  induction l generalizing st with
  | nil => rfl
  | cons kw t ih => rw [List.foldl_cons, ih, compressRound_length]

theorem compressBlock_length (h blk : List Nat) :
    (compressBlock h blk).length = h.length := by
  unfold compressBlock
  rw [List.length_map, List.length_zip, foldl_compressRound_length]
  omega

theorem sha256blocksF_length : ∀ f m h, (sha256blocksF f m h).length = h.length := by
  intro f
  induction f with
  | zero => intro m h; rfl
  | succ g ih =>
    intro m h
    rw [sha256blocksF]
    split
    · rfl
    · rw [ih, compressBlock_length]

theorem flatten_map_toBytesBE4_length (ws : List Nat) :
    ((ws.map (toBytesBE 4)).flatten).length = 4 * ws.length := by
  induction ws with
  | nil => rfl
  | cons w t ih =>
    simp only [List.map_cons, List.flatten_cons, List.length_append, List.length_cons,
      toBytesBE_length, ih]
    omega

theorem sha256_length (m : List Nat) : (sha256 m).length = 32 := by
  unfold sha256
  rw [flatten_map_toBytesBE4_length, sha256blocksF_length]
  rfl

theorem sha256_bytes_lt (m : List Nat) : ∀ x ∈ sha256 m, x < 256 := by
  intro x hx
  unfold sha256 at hx
  rw [List.mem_flatten] at hx
  obtain ⟨l, hl, hxl⟩ := hx
  rw [List.mem_map] at hl
  obtain ⟨w, _, hw⟩ := hl
  exact toBytesBE_bytes_lt 4 w x (hw ▸ hxl)

theorem b58encodeM_of_head_ne (p : List Nat) (hne : p ≠ []) (hh : p.headI ≠ 0) :
    b58encodeM p = natToB58 (fromBytesBE p) := by
  cases p with
  | nil => simp at hne
  | cons a t =>
    have ha : ¬(a = 0) := by simpa using hh
    show List.replicate (countLeading 0 (a :: t)) 49 ++ natToB58 (fromBytesBE (a :: t)) = _
    rw [countLeading, if_neg ha]
    rfl

theorem b58decodeM_natToB58 (n : Nat) (hn : 1 ≤ n) :
    b58decodeM (natToB58 n) = .ok (natToBytesMin n) := by
  have hnf : n < 58 ^ (n + 1) := lt_pow_base 58 n (by norm_num)
  obtain ⟨d, t, hdt, hd1⟩ := natDigitsF_head (n + 1) 58 n (by norm_num) hn hnf
  have hdlt : d < 58 := natDigitsF_lt_base (n + 1) 58 n d (by norm_num) (by rw [hdt]; simp)
  have halllt : ∀ y ∈ natDigitsF (n + 1) 58 n, y < 58 :=
    fun y hy => natDigitsF_lt_base (n + 1) 58 n y (by norm_num) hy
  have hmap : natToB58 n = b58chars.getD d 49 :: t.map (fun e => b58chars.getD e 49) := by
    unfold natToB58
    rw [hdt]
    rfl
  have hc0 : countLeading 49 (natToB58 n) = 0 := by
    rw [hmap, countLeading, if_neg ?_]
    intro hc
    exact b58chars_ne_one d hd1 hdlt hc
  have hacc : b58ToNatAcc 0 (natToB58 n) = .ok n := by
    show b58ToNatAcc 0 ((natDigitsF (n + 1) 58 n).map (fun e => b58chars.getD e 49)) = _
    rw [b58ToNatAcc_digits _ 0 halllt]
    rw [natDigitsF_foldl (n + 1) 58 n 0 (by norm_num) hnf]
    simp
  unfold b58decodeM
  rw [hc0]
  simp only [List.drop_zero]
  rw [hacc, bind_ok_my]
  simp

theorem b58_roundtrip (p : List Nat) (hne : p ≠ []) (hh : p.headI ≠ 0)
    (hb : ∀ x ∈ p, x < 256) : b58decodeM (b58encodeM p) = .ok p := by
  rw [b58encodeM_of_head_ne p hne hh]
  rw [b58decodeM_natToB58 (fromBytesBE p) (fromBytesBE_pos p hne hh)]
  rw [natToBytesMin_fromBytesBE p hne hh hb]

theorem sha256d4_length (v : List Nat) : (sha256d4 v).length = 4 := by
  show ((sha256 (sha256 v)).take 4).length = 4
  rw [List.length_take, sha256_length]
  omega

theorem sha256d4_bytes_lt (v : List Nat) : ∀ x ∈ sha256d4 v, x < 256 := by
  intro x hx
  exact sha256_bytes_lt (sha256 v) x (List.mem_of_mem_take hx)

theorem b58decode_check_split (v c : List Nat) (hne : v ≠ []) (hh : v.headI ≠ 0)
    (hb : ∀ x ∈ v, x < 256) (hc4 : c.length = 4) (hcb : ∀ x ∈ c, x < 256) :
    b58decode_check (b58encodeM (v ++ c))
      = if c = sha256d4 v then .ok v else .error (.valueError "Invalid checksum") := by
  have hpb : ∀ x ∈ v ++ c, x < 256 := by
    intro x hx
    rcases List.mem_append.mp hx with h1 | h2
    · exact hb x h1
    · exact hcb x h2
  have hph : (v ++ c).headI ≠ 0 := by
    cases v with
    | nil => simp at hne
    | cons a t => simpa using hh
  have hpn : (v ++ c) ≠ [] := by
    cases v with
    | nil => simp at hne
    | cons a t => simp
  have hrt := b58_roundtrip _ hpn hph hpb
  unfold b58decode_check
  rw [hrt, bind_ok_my]
  have hlen : (v ++ c).length = v.length + 4 := by
    rw [List.length_append, hc4]
  rw [hlen]
  have htake : (v ++ c).take (v.length + 4 - 4) = v := by
    rw [show v.length + 4 - 4 = v.length from by omega]
    exact take_append_my v c
  have hdrop : (v ++ c).drop (v.length + 4 - 4) = c := by
    rw [show v.length + 4 - 4 = v.length from by omega]
    have h := drop_append_my v c 0
    rw [Nat.add_zero] at h
    rw [List.drop_zero] at h
    exact h
  rw [htake, hdrop]

/-- Claim C8 (confirmed; the `base58` library, `hashlib.sha256` and the
curve collaborator are modelled from the spec): for every in-range
private-key scalar `k` and both settings of the testnet flag,
`from_b58check (to_b58check k testnet)` succeeds and yields a private key
whose scalar is `k`, for any collaborator returning on-curve points; and
decoding a Base58Check string whose 4-byte checksum field has been
corrupted to any other 4-byte value fails with the invalid-checksum
error. -/
theorem c8_b58check_roundtrip_and_checksum (public_key_fn : Nat → Nat × Nat)
    (hcurve : ∀ j, isOnCurvePt (public_key_fn j) = true)
    (k : Nat) (testnet : Bool) (hk1 : 1 ≤ k) (hkn : k < secpN)
    (c : List Nat) (hc4 : c.length = 4) (hcb : ∀ x ∈ c, x < 256)
    (hcne : c ≠ sha256d4
      ((if testnet then privTestnetVersion else privMainnetVersion) :: toBytesBE 32 k)) :
    (∃ out pk, to_b58check k testnet = .ok out ∧
      from_b58check public_key_fn out = .ok pk ∧ pk.key = k) ∧
    b58decode_check (b58encodeM
      (((if testnet then privTestnetVersion else privMainnetVersion) :: toBytesBE 32 k) ++ c))
      = .error (.valueError "Invalid checksum") := by
  have hk256 : k < 256 ^ 32 := by
    have h : secpN < 256 ^ 32 := by decide
    omega
  set v := if testnet then privTestnetVersion else privMainnetVersion with hv
  have hv0 : v ≠ 0 := by
    rw [hv]
    cases testnet <;> decide
  have hvlt : v < 256 := by
    rw [hv]
    cases testnet <;> decide
  have hvver : v = privTestnetVersion ∨ v = privMainnetVersion := by
    rw [hv]
    cases testnet <;> simp
  have hpne : (v :: toBytesBE 32 k) ≠ [] := by simp
  have hph : (v :: toBytesBE 32 k).headI ≠ 0 := by simpa using hv0
  have hpb : ∀ x ∈ v :: toBytesBE 32 k, x < 256 := by
    intro x hx
    rcases List.mem_cons.mp hx with h1 | h2
    · rw [h1]
      exact hvlt
    · exact toBytesBE_bytes_lt 32 k x h2
  constructor
  · have hito : intToBytes k 32 = .ok (toBytesBE 32 k) := by
      unfold intToBytes
      rw [if_pos hk256]
    have hto : to_b58check k testnet = .ok (b58encode_check (v :: toBytesBE 32 k)) := by
      unfold to_b58check
      rw [hito, bind_ok_my, ← hv, List.singleton_append]
    have hdec : b58decode_check (b58encode_check (v :: toBytesBE 32 k))
        = .ok (v :: toBytesBE 32 k) := by
      have h := b58decode_check_split (v :: toBytesBE 32 k) (sha256d4 (v :: toBytesBE 32 k))
        hpne hph hpb (sha256d4_length _) (sha256d4_bytes_lt _)
      rw [if_pos rfl] at h
      exact h
    refine ⟨b58encode_check (v :: toBytesBE 32 k), ⟨k, ⟨public_key_fn k⟩⟩, hto, ?_, rfl⟩
    have hat : pyAt (v :: toBytesBE 32 k) 0 = .ok v := by
      unfold pyAt
      rw [if_pos (by simp)]
      rfl
    unfold from_b58check
    rw [hdec, bind_ok_my, hat, bind_ok_my, if_pos hvver]
    have hfb : fromBytesBE ((v :: toBytesBE 32 k).drop 1) = k := by
      show fromBytesBE (toBytesBE 32 k) = k
      exact fromBytesBE_toBytesBE 32 k hk256
    rw [hfb]
    unfold privateKeyInit publicKeyFromPoint publicKeyInit
    rw [if_pos (hcurve k)]
    rfl
  · have h := b58decode_check_split (v :: toBytesBE 32 k) c hpne hph hpb hc4 hcb
    rw [if_neg hcne] at h
    exact h

/-- Witness for claim C8 at `k = 1`, mainnet flag, corrupted checksum
`00 00 00 00`, with a collaborator returning the base point. -/
theorem c8_b58check_roundtrip_and_checksum_witness :
    (∃ out pk, to_b58check 1 false = .ok out ∧
      from_b58check (fun _ => (secpGx, secpGy)) out = .ok pk ∧ pk.key = 1) ∧
    b58decode_check (b58encodeM
      (((if false then privTestnetVersion else privMainnetVersion) :: toBytesBE 32 1)
        ++ [0, 0, 0, 0]))
      = .error (.valueError "Invalid checksum") :=
  c8_b58check_roundtrip_and_checksum (fun _ => (secpGx, secpGy))
    (by
      intro j
      show isOnCurvePt (secpGx, secpGy) = true
      decide)
    1 false (by decide) (by decide) [0, 0, 0, 0] (by decide) (by decide) (by decide)
